import Mathlib

/-!
# Telemetry cache server: fetch, population and aggregation

A shallow embedding of `src/server/server.go`.

Conventions of the embedding
* Go `uint` driver numbers are `Nat`; Go `int` keys and positions are `Int`
  (no arithmetic is performed on them, so no wrap-around can occur).
* Go `float64` durations and speeds are only ever compared with each other and
  with `0`; they are represented by `Int` values in a fixed sub-unit
  (for instance milliseconds), which keeps every comparison decidable.
* A database table is the list of its rows in insertion order.  The table
  `drivers` has the integer primary key `driver_number`, which is its rowid:
  an unordered listing of it comes back in driver-number order
  (`driverListing`).  The table `sessions` is keyed the same way; its listing
  only feeds a map and a set of concurrent workers, which have no order of
  their own.
* A request text handed to `driver_number = ?` is compared by the SQL engine,
  not by the program: the comparison is the field `textEq` of the store, and
  the theorems hold whatever it is.  `sqliteTextEq` is the one used by the
  sample stores.
* Strings are ordered through `strKey`, the list of their code points.
* `encoding/json`, `net/http` and the SQL engine are libraries outside the
  repository: the JSON functions are taken as a parameter (`JsonLib`), the
  network is the sequence of outcomes of successive `http.Get` calls.
* Queries on the store do not fail: the branches that answer status 500 on a
  database error are not part of the embedding.  A handler returns
  `Except Fault _`, where `Fault` lists the other ways it can end.
* Batch inserts can fail: population runs in an environment (`Env`) that gives
  the answers of the remote provider per URL and the store's verdict on each
  `CreateInBatches` call.  `log.Fatalf` is the error side of `Except Abort _`.
* The goroutines of the positions/laps fan-out are a transition system on
  `FanState`, with the buffered channel `sem` as a counter of its elements.
-/

set_option linter.dupNamespace false

namespace F1Server

/-! ## Fetcher -/

/-- The value `json.Unmarshal` stores into an `interface{}` target. -/
inductive JValue where
  | null
  | bool (b : Bool)
  | number (x : Int)
  | str (s : String)
  | array (items : List JValue)
  | object (fields : List (String × JValue))

/-- The two `encoding/json` entry points used by `fetchWithRetry`, on a body
given as its list of bytes. -/
structure JsonLib where
  valid : List Nat → Bool
  unmarshal : List Nat → Except String JValue

/-- What `io.ReadAll(resp.Body)` yields. -/
inductive BodyRead where
  | readErr (e : String)
  | bytes (b : List Nat)

/-- The outcome of one `http.Get(url)` call: either `err != nil`, or a response
with a status code and a body stream. -/
inductive HttpResult where
  | transportErr (e : String)
  | response (status : Nat) (body : BodyRead)

/-- The errors `fetchWithRetry` can return, one constructor per `return nil, ...`
statement.  `exhausted` is the statement after the loop; its cause is the
outer `err` variable, which holds the error of the last `http.Get` (`none` when
that call returned a response, or when no call was made). -/
inductive FetchErr where
  | readErr (e : String)
  | emptyBody
  | invalidJson
  | unmarshalErr (e : String)
  | emptyArray
  | emptyObject
  | exhausted (maxRetries : Int) (cause : Option String)
  deriving DecidableEq, Repr

/-- Result of a fetch together with the number of `http.Get` calls made and
the total time slept between attempts (in seconds). -/
structure FetchOutcome where
  result : Except FetchErr (List Nat)
  calls : Nat
  slept : Nat

/-- The type switch on the decoded value: `some e` when the value is an empty
array or an empty object, `none` for every other dynamic type (the switch has
no default branch). -/
def emptyCollection : JValue → Option FetchErr
  | .array [] => some .emptyArray
  | .object [] => some .emptyObject
  | _ => none

/-- The checks made on a body that was read from a `200` response, in source
order: non-empty, `json.Valid`, `json.Unmarshal`, type switch. -/
def checkBody (lib : JsonLib) (b : List Nat) : Option FetchErr :=
  if b.length = 0 then some .emptyBody
  else if !lib.valid b then some .invalidJson
  else match lib.unmarshal b with
    | .error e => some (.unmarshalErr e)
    | .ok v => emptyCollection v

/-- The `for i := 0; i < maxRetries; i++` loop of `fetchWithRetry`.  `n` is the
number of iterations still to run, `i` the loop counter (also the index of the
next `http.Get` call), `err` the outer error variable and `backoff` the current
delay. -/
def fetchLoop (lib : JsonLib) (net : Nat → HttpResult) (maxRetries : Int) :
    Nat → Nat → Option String → Nat → Nat → FetchOutcome
  | 0, i, err, _, slept => ⟨.error (.exhausted maxRetries err), i, slept⟩
  | n + 1, i, _, backoff, slept =>
    let more : Bool := decide ((i : Int) < maxRetries - 1)
    match net i with
    | .response 200 (.readErr e) =>
      if more then fetchLoop lib net maxRetries n (i + 1) none (backoff * 2) (slept + backoff)
      else ⟨.error (.readErr e), i + 1, slept⟩
    | .response 200 (.bytes b) =>
      match checkBody lib b with
      | some e =>
        if more then fetchLoop lib net maxRetries n (i + 1) none (backoff * 2) (slept + backoff)
        else ⟨.error e, i + 1, slept⟩
      | none => ⟨.ok b, i + 1, slept⟩
    | .response _ _ =>
      if more then fetchLoop lib net maxRetries n (i + 1) none (backoff * 2) (slept + backoff)
      else fetchLoop lib net maxRetries n (i + 1) none backoff slept
    | .transportErr e =>
      if more then fetchLoop lib net maxRetries n (i + 1) (some e) (backoff * 2) (slept + backoff)
      else fetchLoop lib net maxRetries n (i + 1) (some e) backoff slept

/-- The function `fetchWithRetry(url, maxRetries)` against the network `net`, where `net i`
is the outcome of the `i`-th `http.Get` call (counted from 0). -/
def fetchWithRetry (lib : JsonLib) (net : Nat → HttpResult) (maxRetries : Int) : FetchOutcome :=
  fetchLoop lib net maxRetries maxRetries.toNat 0 none 1 0

/-- An attempt that the loop does not return from with data: transport error,
status other than 200, unreadable body, or a body failing one of the checks. -/
def attemptFails (lib : JsonLib) : HttpResult → Prop
  | .transportErr _ => True
  | .response status body =>
    status ≠ 200 ∨
    match body with
    | .readErr _ => True
    | .bytes b =>
      b = [] ∨ lib.valid b = false ∨ (∃ e, lib.unmarshal b = .error e) ∨
        lib.unmarshal b = .ok (.array []) ∨ lib.unmarshal b = .ok (.object [])

/-- An attempt carrying a payload that passes every check of the loop. -/
def attemptYields (lib : JsonLib) (r : HttpResult) (b : List Nat) : Prop :=
  r = .response 200 (.bytes b) ∧ b ≠ [] ∧ lib.valid b = true ∧
    ∃ v, lib.unmarshal b = .ok v ∧ v ≠ .array [] ∧ v ≠ .object []

/-- A small JSON library for concrete evaluations.  It agrees with
`encoding/json` on the four documents it knows: `null`, `[]`, the empty
object, and `[1]`; every other body is reported as malformed. -/
def sampleJson : JsonLib where
  valid b := b == [110, 117, 108, 108] || b == [91, 93] || b == [123, 125] || b == [91, 49, 93]
  unmarshal b :=
    if b == [110, 117, 108, 108] then .ok .null
    else if b == [91, 93] then .ok (.array [])
    else if b == [123, 125] then .ok (.object [])
    else if b == [91, 49, 93] then .ok (.array [.number 1])
    else .error "invalid character"

/-- Network for a concrete run: a timeout, then a 503, then a good body. -/
def netTwoFailuresThenData : Nat → HttpResult
  | 0 => .transportErr "timeout"
  | 1 => .response 503 (.bytes [])
  | _ => .response 200 (.bytes [91, 49, 93])

/-- Network for a concrete run: an empty array, a 500 and a transport error;
from the fourth call on it would answer with a good body. -/
def netThreeFailures : Nat → HttpResult
  | 0 => .response 200 (.bytes [91, 93])
  | 1 => .response 500 (.bytes [])
  | 2 => .transportErr "connection reset"
  | _ => .response 200 (.bytes [91, 49, 93])

/-- Network that answers every call with status 200 and the body `null`. -/
def netNull : Nat → HttpResult :=
  fun _ => .response 200 (.bytes [110, 117, 108, 108])

/-! ## Data model -/

structure Driver where
  DriverNumber : Nat
  FirstName : String
  LastName : String
  NameAcronym : String
  TeamName : String
  CountryCode : String
  deriving DecidableEq, Repr

structure Session where
  SessionKey : Int
  SessionName : String
  SessionType : String
  Location : String
  CountryName : String
  Year : Int
  CircuitShortName : String
  DateStart : String
  deriving DecidableEq, Repr

structure Position where
  DriverNumber : Nat
  SessionKey : Int
  Position : Int
  Date : String
  deriving DecidableEq, Repr

structure Lap where
  DriverNumber : Nat
  SessionKey : Int
  LapNumber : Int
  LapDuration : Int
  DurationSector1 : Int
  DurationSector2 : Int
  DurationSector3 : Int
  StSpeed : Int
  DateStart : String
  deriving DecidableEq, Repr

/-- Go zero value `Driver{}`. -/
def zeroDriver : Driver := ⟨0, "", "", "", "", ""⟩

/-- Go zero value `Session{}`. -/
def zeroSession : Session := ⟨0, "", "", "", "", 0, "", ""⟩

/-- Go zero value `Position{}`. -/
def zeroPosition : Position := ⟨0, 0, 0, ""⟩

/-- Go zero value `Lap{}`. -/
def zeroLap : Lap := ⟨0, 0, 0, 0, 0, 0, 0, 0, ""⟩

/-- Sort key of a string.  Go and SQLite compare strings bytewise, which on
UTF-8 text is the lexicographic order of the code points. -/
def strKey (s : String) : List Nat := s.toList.map Char.toNat

/-- Blank characters of the engine's number scanner: the space and the control
characters 9 to 13. -/
def isBlank (c : Char) : Bool :=
  c.toNat == 32 || (decide (9 ≤ c.toNat) && decide (c.toNat ≤ 13))

/-- Drops leading blanks. -/
def skipBlanks : List Char → List Char
  | [] => []
  | c :: cs => if isBlank c then skipBlanks cs else c :: cs

/-- Reads an optional sign: whether it was `-`, and the rest. -/
def scanSign : List Char → Bool × List Char
  | '-' :: cs => (true, cs)
  | '+' :: cs => (false, cs)
  | cs => (false, cs)

/-- Reads a run of decimal digits onto the accumulator `acc`: the value, the
count `n` raised by the number of digits read, and the rest. -/
def scanDigits : List Char → Nat → Nat → Nat × Nat × List Char
  | [], acc, n => (acc, n, [])
  | c :: cs, acc, n =>
    if c.isDigit then scanDigits cs (acc * 10 + (c.toNat - 48)) (n + 1) else (acc, n, c :: cs)

/-- A decimal number `± mantissa * 10 ^ exponent`. -/
structure Decimal where
  negative : Bool
  mantissa : Nat
  exponent : Int
  deriving DecidableEq, Repr

/-- The text forms SQLite reads as a number when a text value meets an integer
column (numeric affinity): blanks, an optional sign, digits with an optional
fraction part (at least one digit in all), an optional exponent `e` or `E` with
an optional sign and at least one digit, blanks.  Any other text is no number. -/
def readDecimal (s : String) : Option Decimal :=
  let (neg, z1) := scanSign (skipBlanks s.toList)
  let (m1, n1, z2) := scanDigits z1 0 0
  let (m2, n2, z3) :=
    match z2 with
    | '.' :: r => scanDigits r m1 0
    | r => (m1, 0, r)
  if n1 + n2 = 0 then none
  else
    match z3 with
    | [] => some ⟨neg, m2, -(n2 : Int)⟩
    | c :: r =>
      if c == 'e' || c == 'E' then
        let (eneg, z4) := scanSign r
        let (e, ne, z5) := scanDigits z4 0 0
        if ne = 0 then none
        else if (skipBlanks z5).isEmpty then
          some ⟨neg, m2, (if eneg then -(e : Int) else (e : Int)) - (n2 : Int)⟩
        else none
      else if (skipBlanks (c :: r)).isEmpty then some ⟨neg, m2, -(n2 : Int)⟩
      else none

/-- Whether the decimal number has the value `n`. -/
def Decimal.eqNat (d : Decimal) (n : Nat) : Bool :=
  if d.mantissa = 0 then n == 0
  else if d.negative then false
  else if 0 ≤ d.exponent then d.mantissa * 10 ^ d.exponent.toNat == n
  else d.mantissa == n * 10 ^ (-d.exponent).toNat

/-- The comparison `driver_number = ?` of SQLite for a text parameter, as used
by the sample stores: text that reads as a number equals the integer of the
same value, so `44`, `+44`, ` 44`, `44.0` and `44e0` all equal 44; text that
does not read as a number equals no integer.  The engine compares the float64
nearest to the text, this function its exact decimal value; the two differ only
on texts with more significant digits than a float64 holds, none of which is
used below. -/
def sqliteTextEq (s : String) (n : Nat) : Bool :=
  match readDecimal s with
  | some d => d.eqNat n
  | none => false

/-- The database `proxy.db`: its four tables, each in insertion order, and the
engine's comparison `textEq id n` of a text parameter `id` with the value `n`
of the integer column `driver_number`. -/
structure Store where
  drivers : List Driver
  sessions : List Session
  positions : List Position
  laps : List Lap
  textEq : String → Nat → Bool

/-! ## Query primitives -/

/-- The clause `ORDER BY` with the comparator `le`: a stable sort, so rows that compare
equal stay in table order. -/
def orderBy {α : Type} (le : α → α → Bool) (rows : List α) : List α :=
  rows.insertionSort (fun a b => le a b = true)

/-- Comparator of `ORDER BY k1 ASC, k2 ASC`. -/
def lexAsc {α κ₁ κ₂ : Type} [LinearOrder κ₁] [LinearOrder κ₂] (k1 : α → κ₁) (k2 : α → κ₂)
    (a b : α) : Bool :=
  decide (k1 a < k1 b) || (decide (k1 a = k1 b) && decide (k2 a ≤ k2 b))

/-- Comparator of `ORDER BY k1 DESC, k2 ASC`. -/
def lexDesc {α κ₁ κ₂ : Type} [LinearOrder κ₁] [LinearOrder κ₂] (k1 : α → κ₁) (k2 : α → κ₂)
    (a b : α) : Bool :=
  decide (k1 b < k1 a) || (decide (k1 a = k1 b) && decide (k2 a ≤ k2 b))

/-- The value `strconv.Atoi`-style scanning gives a run of decimal digits. -/
def parseDigits : List Char → Nat → Option Nat
  | [], acc => some acc
  | c :: cs, acc => if c.isDigit then parseDigits cs (acc * 10 + (c.toNat - 48)) else none

/-- The function `strconv.Atoi`: an optional sign followed by at least one decimal digit,
within the range of a 64-bit `int`. -/
def atoi (s : String) : Option Int :=
  let signed : Option Int :=
    match s.toList with
    | [] => none
    | '-' :: c :: cs => (parseDigits (c :: cs) 0).map (fun n => - (n : Int))
    | '+' :: c :: cs => (parseDigits (c :: cs) 0).map (fun n => (n : Int))
    | cs => (parseDigits cs 0).map (fun n => (n : Int))
  signed.bind (fun v => if -(2 : Int) ^ 63 ≤ v ∧ v < (2 : Int) ^ 63 then some v else none)

/-- The query `db.Find(&drivers)`.  The column `driver_number` is the integer
primary key of the table, hence its rowid, and a listing without `ORDER BY`
walks the table in rowid order: the drivers come back by ascending number,
whatever the order of their insertion. -/
def driverListing (st : Store) : List Driver :=
  orderBy (fun a b => decide (a.DriverNumber ≤ b.DriverNumber)) st.drivers

/-- The query `db.First(&driver, "driver_number = ?", id)` with the request
text `id`: the first row in primary-key order that the engine finds equal to
the text. -/
def driverByText (st : Store) (id : String) : Option Driver :=
  (driverListing st).find? (fun d => st.textEq id d.DriverNumber)

/-- The query `db.First(&driver, "driver_number = ?", n)` with a numeric argument. -/
def driverByNumber (st : Store) (n : Nat) : Option Driver :=
  st.drivers.find? (fun d => d.DriverNumber == n)

/-- The query `db.First(&session, "session_key = ?", k)`. -/
def sessionByKey (st : Store) (k : Int) : Option Session :=
  st.sessions.find? (fun s => s.SessionKey == k)

/-- A Go `map[int]Session`, as the list of its entries; keys are distinct. -/
abbrev SessionMap := List (Int × Session)

/-- The assignment `m[k] = v`. -/
def mapSet (m : SessionMap) (k : Int) (v : Session) : SessionMap :=
  if m.any (fun e => e.1 == k) then m.map (fun e => if e.1 == k then (k, v) else e)
  else m ++ [(k, v)]

/-- The two-result lookup `v, exists := m[k]`. -/
def mapGet? (m : SessionMap) (k : Int) : Option Session :=
  (m.find? (fun e => e.1 == k)).map (fun e => e.2)

/-- The one-result lookup `m[k]`, giving the zero value on a missing key. -/
def mapGet (m : SessionMap) (k : Int) : Session :=
  (mapGet? m k).getD zeroSession

/-- The map built by `for _, s := range sessions { sessionsByKey[s.SessionKey] = s }`. -/
def sessionsByKey (sessions : List Session) : SessionMap :=
  sessions.foldl (fun m s => mapSet m s.SessionKey s) []

/-! ## Handler results and dynamic values -/

/-- Ways a handler ends other than with a 200 response.  A panic is caught by
the recovery middleware and answered with status 500. -/
inductive Fault where
  | badRequest
  | notFound
  | panic (msg : String)
  deriving DecidableEq, Repr

/-- A value stored in a `gin.H` (an `interface{}`) whose dynamic type is later
inspected by a type assertion. -/
inductive Dyn where
  | int (i : Int)
  | str (s : String)
  | time (unixNano : Int)
  deriving DecidableEq, Repr

/-- Message of the panic raised by the assertion `v.(int)` on a string. -/
def notIntMsg : String := "interface conversion: interface \x7b\x7d is string, not int"

/-- Message of the panic raised by the assertion `v.(time.Time)` on a string. -/
def notTimeMsg : String := "interface conversion: interface \x7b\x7d is string, not time.Time"

/-- The type assertion `v.(int)`. -/
def Dyn.asInt : Dyn → Except Fault Int
  | .int i => .ok i
  | .str _ => .error (.panic notIntMsg)
  | .time _ => .error (.panic "interface conversion: interface \x7b\x7d is time.Time, not int")

/-- The type assertion `v.(time.Time)`. -/
def Dyn.asTime : Dyn → Except Fault Int
  | .time t => .ok t
  | .str _ => .error (.panic notTimeMsg)
  | .int _ => .error (.panic "interface conversion: interface \x7b\x7d is int, not time.Time")

/-- Inner loop of the insertion sort behind `sort.Slice`:
`for j := i; j > 0 && less(j, j-1); j-- { swap }`.  The second argument is the
already sorted prefix in reverse (nearest element first), as is the result. -/
def insertBack {α : Type} (less : α → α → Except Fault Bool) (x : α) :
    List α → Except Fault (List α)
  | [] => .ok [x]
  | y :: ys =>
    match less x y with
    | .error e => .error e
    | .ok true =>
      match insertBack less x ys with
      | .error e => .error e
      | .ok r => .ok (y :: r)
    | .ok false => .ok (x :: y :: ys)

/-- Outer loop of the insertion sort: `for i := 1; i < n; i++`. -/
def sortLoop {α : Type} (less : α → α → Except Fault Bool) :
    List α → List α → Except Fault (List α)
  | acc, [] => .ok acc.reverse
  | acc, x :: xs =>
    match insertBack less x acc with
    | .error e => .error e
    | .ok acc' => sortLoop less acc' xs

/-- The call `sort.Slice(xs, less)` with a comparison that may panic.  The library sorts
slices of up to 12 elements by this insertion sort; on longer slices it also
starts by calling `less`, and any ordering it produces is a permutation sorted
by `less`. -/
def sortSlice {α : Type} (less : α → α → Except Fault Bool) : List α → Except Fault (List α)
  | [] => .ok []
  | x :: xs => sortLoop less [x] xs

/-! ## `getDriverPositions` -/

/-- One element of the `positions` array of the response. -/
structure PositionEntry where
  session_key : Int
  circuit_short_name : String
  race : String
  position : Int
  date : Dyn
  deriving DecidableEq, Repr

structure DriverPositions where
  driver_id : Nat
  positions : List PositionEntry
  deriving DecidableEq, Repr

/-- The body of the `for _, pos := range positions` loop: rows of sessions that
are not cached are skipped; `"date"` receives `pos.Date`, a Go `string`. -/
def positionEntry (m : SessionMap) (pos : Position) : Option PositionEntry :=
  match mapGet? m pos.SessionKey with
  | none => none
  | some session =>
    some ⟨pos.SessionKey, session.CircuitShortName, "GP de " ++ session.CountryName,
      pos.Position, .str pos.Date⟩

/-- The comparison passed to `sort.Slice` in `getDriverPositions`:
`a["date"].(time.Time).Before(b["date"].(time.Time))`. -/
def dateBefore (a b : PositionEntry) : Except Fault Bool :=
  match a.date.asTime with
  | .error e => .error e
  | .ok ta =>
    match b.date.asTime with
    | .error e => .error e
    | .ok tb => .ok (decide (ta < tb))

/-- The handler `getDriverPositions` for the request parameter `id`. -/
def getDriverPositions (st : Store) (id : String) : Except Fault DriverPositions :=
  match driverByText st id with
  | none => .error .notFound
  | some driver =>
    let positions := st.positions.filter (fun p => p.DriverNumber == driver.DriverNumber)
    let m := sessionsByKey st.sessions
    match sortSlice dateBefore (positions.filterMap (positionEntry m)) with
    | .error e => .error e
    | .ok sorted => .ok ⟨driver.DriverNumber, sorted⟩

/-! ## `getDriverDetail` -/

/-- The query `Where("session_key = ? AND driver_number = ?").Order("date DESC").First(..)`.
`First` appends the model's first column (`driver_number`, the model has no
primary key) as a second sort key. -/
def finalPositionOf (st : Store) (sessionKey : Int) (driverNumber : Nat) : Option Position :=
  (orderBy (lexDesc (fun p => strKey p.Date) (fun p => p.DriverNumber))
    (st.positions.filter
      (fun p => p.SessionKey == sessionKey && p.DriverNumber == driverNumber))).head?

/-- The query `Where("session_key = ? AND driver_number = ? AND lap_duration > 0")
.Order("lap_duration ASC").First(..)`. -/
def bestLapOf (st : Store) (sessionKey : Int) (driverNumber : Nat) : Option Lap :=
  (orderBy (lexAsc (fun l => l.LapDuration) (fun l => l.DriverNumber))
    (st.laps.filter (fun l => l.SessionKey == sessionKey && l.DriverNumber == driverNumber
      && decide (l.LapDuration > 0)))).head?

/-- The query `Where("session_key = ? AND lap_duration > 0").Order("lap_duration ASC").First(..)`. -/
def fastestLapOf (st : Store) (sessionKey : Int) : Option Lap :=
  (orderBy (lexAsc (fun l => l.LapDuration) (fun l => l.DriverNumber))
    (st.laps.filter (fun l => l.SessionKey == sessionKey && decide (l.LapDuration > 0)))).head?

/-- One element of `race_results`.  `session_key` is read back through the
type assertion `.(int)` when the results are sorted. -/
structure RaceResult where
  session_key : Dyn
  circuit_short_name : String
  race : String
  position : Int
  fastest_lap : Bool
  max_speed : Int
  best_lap_duration : Int
  deriving DecidableEq, Repr

/-- The local variables updated by the loop over the sessions. -/
structure DetailAcc where
  winCount : Nat
  top3Count : Nat
  maxSpeed : Int
  results : List RaceResult
  deriving DecidableEq, Repr

/-- The variable `bestLap` of the loop body: the driver's best lap of the
session, or `Lap{LapDuration: 0, StSpeed: 0}` when the query finds none. -/
def bestLapOrZero (st : Store) (sessionKey : Int) (driverNumber : Nat) : Lap :=
  (bestLapOf st sessionKey driverNumber).getD zeroLap

/-- The variable `fastestLapInSession` of the loop body, or
`Lap{DriverNumber: 0, LapDuration: 0}` when the query finds none. -/
def fastestLapOrZero (st : Store) (sessionKey : Int) : Lap :=
  (fastestLapOf st sessionKey).getD zeroLap

/-- The `gin.H` literal appended to `results` by the loop body. -/
def raceResult (st : Store) (driver : Driver) (e : Int × Session) (finalPosition : Position) :
    RaceResult :=
  let bestLap := bestLapOrZero st e.1 driver.DriverNumber
  let fastestLapInSession := fastestLapOrZero st e.1
  { session_key := .int e.1
    circuit_short_name := e.2.CircuitShortName
    race := "GP de " ++ e.2.CountryName
    position := finalPosition.Position
    fastest_lap := bestLap.DriverNumber == fastestLapInSession.DriverNumber
      && decide (bestLap.LapDuration > 0)
    max_speed := bestLap.StSpeed
    best_lap_duration := bestLap.LapDuration }

/-- Body of `for sessionKey, session := range sessionsByKey`. -/
def detailStep (st : Store) (driver : Driver) (acc : DetailAcc) (e : Int × Session) : DetailAcc :=
  match finalPositionOf st e.1 driver.DriverNumber with
  | none => acc
  | some finalPosition =>
    let bestLap := bestLapOrZero st e.1 driver.DriverNumber
    { winCount := if finalPosition.Position = 1 then acc.winCount + 1 else acc.winCount
      top3Count := if finalPosition.Position ≤ 3 then acc.top3Count + 1 else acc.top3Count
      maxSpeed := if bestLap.StSpeed > acc.maxSpeed then bestLap.StSpeed else acc.maxSpeed
      results := acc.results ++ [raceResult st driver e finalPosition] }

/-- The comparison passed to `sort.Slice` in `getDriverDetail`: the start dates
of the sessions the two entries refer to. -/
def sessionDateBefore (m : SessionMap) (a b : RaceResult) : Except Fault Bool :=
  match a.session_key.asInt with
  | .error e => .error e
  | .ok ka =>
    match b.session_key.asInt with
    | .error e => .error e
    | .ok kb => .ok (decide (strKey (mapGet m ka).DateStart < strKey (mapGet m kb).DateStart))

/-- The driver lookup of `getDriverDetail`: by driver number, else by 1-based
index into the full driver listing. -/
def lookupDriver (st : Store) (id : String) : Except Fault Driver :=
  match driverByText st id with
  | some d => .ok d
  | none =>
    match atoi id with
    | none => .error .notFound
    | some index =>
      let drivers := driverListing st
      if index < 1 ∨ index > (drivers.length : Int) then .error .notFound
      else .ok (drivers.getD (index - 1).toNat zeroDriver)

structure PerformanceSummary where
  wins : Nat
  top_3_finishes : Nat
  max_speed : Int
  deriving DecidableEq, Repr

structure DriverDetail where
  driver_id : Nat
  performance_summary : PerformanceSummary
  race_results : List RaceResult
  deriving DecidableEq, Repr

/-- The state of the local variables of `getDriverDetail` after the loop over
`sessionsByKey` (a Go map is ranged over in an unspecified order; the entries
are taken here in order of first insertion). -/
def detailLoop (st : Store) (driver : Driver) : DetailAcc :=
  (sessionsByKey st.sessions).foldl (detailStep st driver) ⟨0, 0, 0, []⟩

/-- The handler `getDriverDetail` for the request parameter `id`. -/
def getDriverDetail (st : Store) (id : String) : Except Fault DriverDetail :=
  match lookupDriver st id with
  | .error e => .error e
  | .ok driver =>
    let acc := detailLoop st driver
    match sortSlice (sessionDateBefore (sessionsByKey st.sessions)) acc.results with
    | .error e => .error e
    | .ok results =>
      .ok ⟨driver.DriverNumber, ⟨acc.winCount, acc.top3Count, acc.maxSpeed⟩, results⟩

/-! ## `getSessionDetail` -/

/-- One element of `results`; `position` is the text `%d` of the position, or
the label of the last-place entry. -/
structure ResultEntry where
  position : String
  driver : String
  team : String
  country : String
  deriving DecidableEq, Repr

structure FastestLapInfo where
  driver : String
  total_time : Int
  sector_1 : Int
  sector_2 : Int
  sector_3 : Int
  deriving DecidableEq, Repr

structure MaxSpeedInfo where
  driver : String
  speed_kmh : Int
  deriving DecidableEq, Repr

structure SessionDetail where
  race_id : Int
  country_name : String
  date_start : String
  year : Int
  circuit_short_name : String
  results : List ResultEntry
  fastest_lap : FastestLapInfo
  max_speed : MaxSpeedInfo
  deriving DecidableEq, Repr

/-- The text `fmt.Sprintf("%s %s", d.FirstName, d.LastName)`. -/
def fullName (d : Driver) : String := d.FirstName ++ " " ++ d.LastName

/-- The label of the last-place entry. -/
def ultimoLabel : String := "Último"

/-- The query `Where("session_key = ?").Order("position ASC").Find(&positions)`. -/
def standingsOf (st : Store) (sessionKey : Int) : List Position :=
  orderBy (fun a b => decide (a.Position ≤ b.Position))
    (st.positions.filter (fun p => p.SessionKey == sessionKey))

/-- Body of `for i := 0; i < 3 && i < len(positions); i++`, on the pair
(`resultados`, keys set in `pilotosMostrados`). -/
def top3Step (st : Store) (acc : List ResultEntry × List Nat) (p : Position) :
    List ResultEntry × List Nat :=
  match driverByNumber st p.DriverNumber with
  | none => acc
  | some driver =>
    (acc.1 ++ [⟨toString p.Position, fullName driver, driver.TeamName, driver.CountryCode⟩],
      acc.2 ++ [p.DriverNumber])

/-- The `results` array: the top-3 loop followed by the last-place entry. -/
def sessionResults (st : Store) (positions : List Position) : List ResultEntry :=
  let ultimo : Position := positions.getLast?.getD zeroPosition
  let top := (positions.take 3).foldl (top3Step st) ([], [])
  if top.2.contains ultimo.DriverNumber then top.1
  else
    match driverByNumber st ultimo.DriverNumber with
    | none => top.1
    | some driver =>
      top.1 ++ [⟨ultimoLabel, fullName driver, driver.TeamName, driver.CountryCode⟩]

/-- The query `Where("session_key = ? AND st_speed > 0").Order("st_speed DESC").First(..)`. -/
def topSpeedLapOf (st : Store) (sessionKey : Int) : Option Lap :=
  (orderBy (lexDesc (fun l => l.StSpeed) (fun l => l.DriverNumber))
    (st.laps.filter (fun l => l.SessionKey == sessionKey && decide (l.StSpeed > 0)))).head?

/-- The driver fetched for a lap when `lap.DriverNumber > 0`; the zero value
when the number is 0 or no such driver is stored. -/
def lapDriver (st : Store) (lap : Lap) : Driver :=
  if lap.DriverNumber > 0 then (driverByNumber st lap.DriverNumber).getD zeroDriver
  else zeroDriver

/-- The handler `getSessionDetail` for the request parameter `id`. -/
def getSessionDetail (st : Store) (id : String) : Except Fault SessionDetail :=
  match atoi id with
  | none => .error .badRequest
  | some sessionKey =>
    match sessionByKey st sessionKey with
    | none => .error .notFound
    | some session =>
      let positions := standingsOf st session.SessionKey
      let fastest : Lap := (fastestLapOf st session.SessionKey).getD zeroLap
      let speedLap : Lap := (topSpeedLapOf st session.SessionKey).getD zeroLap
      .ok {
        race_id := session.SessionKey
        country_name := session.CountryName
        date_start := session.DateStart
        year := session.Year
        circuit_short_name := session.CircuitShortName
        results := sessionResults st positions
        fastest_lap := ⟨fullName (lapDriver st fastest), fastest.LapDuration,
          fastest.DurationSector1, fastest.DurationSector2, fastest.DurationSector3⟩
        max_speed := ⟨fullName (lapDriver st speedLap), speedLap.StSpeed⟩ }

/-! ## `getSeasonSummary` -/

/-- A row of a grouped count. -/
structure Count where
  DriverNumber : Nat
  Count : Nat
  deriving DecidableEq, Repr

/-- The query `SELECT k, COUNT(*) ... GROUP BY k` over the listed key values: one row per
distinct key, produced in ascending key order. -/
def groupCount (keys : List Nat) : List Count :=
  (orderBy (fun a b => decide (a ≤ b)) keys.dedup).map (fun k => ⟨k, keys.count k⟩)

/-- The clause `ORDER BY count DESC LIMIT 3`.  SQL leaves the order of rows with
equal counts, and which of them pass the limit, to the engine; here such rows
keep the order of the grouped rows, ascending driver number.  The counts, the
number of entries and the non-increasing order of the counts do not depend on
that choice; the order of two entries with equal counts in a concrete
leaderboard below is the one chosen here. -/
def top3ByCount (rows : List Count) : List Count :=
  (orderBy (fun a b => decide (b.Count ≤ a.Count)) rows).take 3

/-- The `wins` query (the `poles` query has the same text):
`SELECT driver_number, COUNT(*) FROM positions WHERE position = 1
GROUP BY driver_number ORDER BY count DESC LIMIT 3`. -/
def winsQuery (st : Store) : List Count :=
  top3ByCount (groupCount
    ((st.positions.filter (fun p => p.Position == 1)).map (fun p => p.DriverNumber)))

/-- The inner query `SELECT driver_number, session_key, MIN(lap_duration) FROM laps
GROUP BY session_key`: for each session key, in ascending order, the driver of
the row holding the minimum duration (the first such row in table order). -/
def sessionMinLapOwners (st : Store) : List Nat :=
  (orderBy (fun a b => decide (a ≤ b)) (st.laps.map (fun l => l.SessionKey)).dedup).filterMap
    (fun k =>
      ((orderBy (fun a b => decide (a.LapDuration ≤ b.LapDuration))
        (st.laps.filter (fun l => l.SessionKey == k))).head?).map (fun l => l.DriverNumber))

/-- The `fastLaps` query: the inner rows grouped and counted per driver,
`ORDER BY count DESC LIMIT 3`. -/
def fastLapsQuery (st : Store) : List Count :=
  top3ByCount (groupCount (sessionMinLapOwners st))

/-- One element of a leaderboard. -/
structure LeaderEntry where
  position : Nat
  driver : String
  team : String
  country : String
  count : Nat
  deriving DecidableEq, Repr

/-- The closure `format`: rank `i + 1`, the driver's data (zero value when the
driver is not stored) and the count. -/
def format (st : Store) (cs : List Count) : List LeaderEntry :=
  cs.enum.map (fun ic =>
    let d := (driverByNumber st ic.2.DriverNumber).getD zeroDriver
    ⟨ic.1 + 1, fullName d, d.TeamName, d.CountryCode, ic.2.Count⟩)

structure SeasonSummary where
  season : Nat
  top_3_winners : List LeaderEntry
  top_3_fastest_laps : List LeaderEntry
  top_3_pole_positions : List LeaderEntry
  deriving DecidableEq, Repr

/-- The handler `getSeasonSummary`. -/
def getSeasonSummary (st : Store) : SeasonSummary :=
  ⟨2024, format st (winsQuery st), format st (fastLapsQuery st), format st (winsQuery st)⟩

/-! ## Reference quantities and sample data -/

/-- The number of sessions won as the specification words it: the sessions
(keys occurring in the Position table) in which the driver's row selected as
final classification has position 1. -/
def specFinalWins (st : Store) (driverNumber : Nat) : Nat :=
  ((st.positions.map (fun p => p.SessionKey)).dedup.filter
    (fun k => (finalPositionOf st k driverNumber).any (fun p => p.Position == 1))).length

/-- A store with one race in which driver 44 leads early and finishes second
behind driver 1, and whose first lap row of driver 44 has no valid time. -/
def sampleStore : Store where
  drivers := [
    ⟨1, "Max", "Verstappen", "VER", "Red Bull Racing", "NED"⟩,
    ⟨44, "Lewis", "Hamilton", "HAM", "Mercedes", "GBR"⟩]
  sessions := [⟨9472, "Race", "Race", "Sakhir", "Bahrain", 2024, "Sakhir", "2024-03-02T15:00:00"⟩]
  positions := [
    ⟨44, 9472, 1, "2024-03-02T15:00:00"⟩,
    ⟨1, 9472, 2, "2024-03-02T15:00:00"⟩,
    ⟨1, 9472, 1, "2024-03-02T15:20:00"⟩,
    ⟨44, 9472, 2, "2024-03-02T15:20:00"⟩]
  laps := [
    ⟨44, 9472, 1, 0, 0, 0, 0, 0, "2024-03-02T15:00:00"⟩,
    ⟨1, 9472, 1, 97284, 0, 0, 0, 310, "2024-03-02T15:00:00"⟩,
    ⟨44, 9472, 2, 98103, 0, 0, 0, 305, "2024-03-02T15:01:38"⟩,
    ⟨1, 9472, 2, 96500, 0, 0, 0, 312, "2024-03-02T15:01:37"⟩]
  textEq := sqliteTextEq

/-- The row `p` is a Position row of driver `d` in session `k` whose timestamp
is the greatest among the driver's rows of that session. -/
def IsLatestRow (st : Store) (k : Int) (d : Nat) (p : Position) : Prop :=
  p ∈ st.positions ∧ p.SessionKey = k ∧ p.DriverNumber = d ∧
    ∀ q ∈ st.positions, q.SessionKey = k → q.DriverNumber = d → strKey q.Date ≤ strKey p.Date

/-- The lap `f` is a positive-duration lap of session `k` whose duration is the
least among the positive-duration laps of that session. -/
def IsFastestLap (st : Store) (k : Int) (f : Lap) : Prop :=
  f ∈ st.laps ∧ f.SessionKey = k ∧ 0 < f.LapDuration ∧
    ∀ l ∈ st.laps, l.SessionKey = k → 0 < l.LapDuration → f.LapDuration ≤ l.LapDuration

/-- The distinct keys of the cached sessions. -/
def cachedSessionKeys (st : Store) : List Int :=
  (st.sessions.map (fun s => s.SessionKey)).dedup

/-- Whether the Position table has a row of driver `d` in session `k`. -/
def hasPositionRow (st : Store) (d : Nat) (k : Int) : Bool :=
  st.positions.any (fun p => p.SessionKey == k && p.DriverNumber == d)

/-- A store with one race and four classified drivers in positions 1, 2, 3, 4. -/
def fourDriverStore : Store where
  drivers := [
    ⟨1, "Max", "Verstappen", "VER", "Red Bull Racing", "NED"⟩,
    ⟨2, "Logan", "Sargeant", "SAR", "Williams", "USA"⟩,
    ⟨3, "Daniel", "Ricciardo", "RIC", "RB", "AUS"⟩,
    ⟨4, "Lando", "Norris", "NOR", "McLaren", "GBR"⟩]
  sessions := [⟨9472, "Race", "Race", "Sakhir", "Bahrain", 2024, "Sakhir", "2024-03-02T15:00:00"⟩]
  positions := [
    ⟨4, 9472, 4, "2024-03-02T16:30:00"⟩,
    ⟨2, 9472, 2, "2024-03-02T16:30:00"⟩,
    ⟨1, 9472, 1, "2024-03-02T16:30:00"⟩,
    ⟨3, 9472, 3, "2024-03-02T16:30:00"⟩]
  laps := []
  textEq := sqliteTextEq

/-! ## Population -/

/-- The URLs fetched during population. -/
inductive Endpoint where
  | drivers (sessionKey : Int)
  | sessions
  | position (sessionKey : Int)
  | laps (sessionKey : Int)
  deriving DecidableEq, Repr

/-- The `json.Unmarshal` calls into typed slices, one per model. -/
structure RowDecoders where
  drivers : List Nat → Except String (List Driver)
  sessions : List Nat → Except String (List Session)
  positions : List Nat → Except String (List Position)
  laps : List Nat → Except String (List Lap)

inductive Table where
  | drivers
  | sessions
  | positions
  | laps
  deriving DecidableEq, Repr

/-- What surrounds the population code: the JSON library, the remote provider
(`net url i` is the outcome of the `i`-th `http.Get` of `url`) and the store's
verdict on each batch insert (`insertOk table i` tells whether the
`CreateInBatches` call for the batch starting at offset `i` of the rows
collected for `table` succeeds; a constraint violation or an I/O error makes it
fail).  A successful insert appends the batch, a failed one changes nothing. -/
structure Env where
  lib : JsonLib
  rows : RowDecoders
  net : Endpoint → Nat → HttpResult
  insertOk : Table → Nat → Bool

/-- The store together with a record of what population did: the URLs passed
to `fetchWithRetry`, the number of `http.Get` calls, and the batch inserts
issued (table, start and end offset). -/
structure PopState where
  store : Store
  fetched : List Endpoint
  gets : Nat
  inserts : List (Table × Nat × Nat)

/-- Errors of the per-dataset fetch helpers. -/
inductive PopErr where
  | fetch (e : FetchErr)
  | parse (e : String)
  deriving DecidableEq, Repr

/-- The call `fetchWithRetry(url, 3)`. -/
def fetchUrl (env : Env) (url : Endpoint) : FetchOutcome :=
  fetchWithRetry env.lib (env.net url) 3

/-- Record one `fetchWithRetry` call in the state. -/
def PopState.afterFetch (s : PopState) (url : Endpoint) (o : FetchOutcome) : PopState :=
  { s with fetched := s.fetched ++ [url], gets := s.gets + o.calls }

/-- Roster of session 9574. -/
def mainDriverNums : List Nat :=
  [1, 2, 3, 4, 10, 11, 14, 16, 18, 20, 22, 23, 24, 27, 31, 44, 55, 63, 77, 81]

/-- Roster of session 9636. -/
def extraDriverNums : List Nat := [30, 50, 43]

/-- The function `fetchSpecificDriversFromOpenF1`: the drivers of the session whose
number is in `driverNumbers`. -/
def fetchSpecificDriversFromOpenF1 (env : Env) (sessionKey : Int) (driverNumbers : List Nat) :
    Except PopErr (List Driver) :=
  match (fetchUrl env (.drivers sessionKey)).result with
  | .error e => .error (.fetch e)
  | .ok body =>
    match env.rows.drivers body with
    | .error e => .error (.parse e)
    | .ok allDrivers => .ok (allDrivers.filter (fun d => driverNumbers.contains d.DriverNumber))

/-- The slice `append(allDrivers, ds...)` guarded by `err == nil`. -/
def rowsOrNone {α : Type} (r : Except PopErr (List α)) : List α :=
  match r with
  | .ok rows => rows
  | .error _ => []

/-- The function `autoPopulateDriversIfNeeded`. -/
def autoPopulateDriversIfNeeded (env : Env) (s : PopState) : PopState :=
  if s.store.drivers.length > 0 then s
  else
    let mainDrivers := fetchSpecificDriversFromOpenF1 env 9574 mainDriverNums
    let s1 := s.afterFetch (.drivers 9574) (fetchUrl env (.drivers 9574))
    let extraDrivers := fetchSpecificDriversFromOpenF1 env 9636 extraDriverNums
    let s2 := s1.afterFetch (.drivers 9636) (fetchUrl env (.drivers 9636))
    let allDrivers := rowsOrNone mainDrivers ++ rowsOrNone extraDrivers
    if allDrivers.length > 0 then
      let s3 := { s2 with inserts := s2.inserts ++ [(Table.drivers, 0, allDrivers.length)] }
      if env.insertOk .drivers 0 then
        { s3 with store := { s3.store with drivers := s3.store.drivers ++ allDrivers } }
      else s3
    else s2

/-- Why `log.Fatalf` ended the process. -/
inductive AbortReason where
  | fetchFailed (e : FetchErr)
  | parseFailed (e : String)
  | noSessions
  | insertFailed
  deriving DecidableEq, Repr

/-- A run ended by `log.Fatalf`, with the state reached at that point. -/
structure Abort where
  reason : AbortReason
  state : PopState

/-- The function `autoPopulateSessionsIfNeeded`. -/
def autoPopulateSessionsIfNeeded (env : Env) (s : PopState) : Except Abort PopState :=
  if s.store.sessions.length > 0 then .ok s
  else
    let o := fetchUrl env .sessions
    let s1 := s.afterFetch .sessions o
    match o.result with
    | .error e => .error ⟨.fetchFailed e, s1⟩
    | .ok body =>
      match env.rows.sessions body with
      | .error e => .error ⟨.parseFailed e, s1⟩
      | .ok sessions =>
        if sessions.length = 0 then .error ⟨.noSessions, s1⟩
        else
          let s2 := { s1 with inserts := s1.inserts ++ [(Table.sessions, 0, sessions.length)] }
          if env.insertOk .sessions 0 then
            .ok { s2 with store := { s2.store with sessions := s2.store.sessions ++ sessions } }
          else .error ⟨.insertFailed, s2⟩

/-- The function `fetchPositionsFromAPI`. -/
def fetchPositionsFromAPI (env : Env) (sessionKey : Int) : Except PopErr (List Position) :=
  match (fetchUrl env (.position sessionKey)).result with
  | .error e => .error (.fetch e)
  | .ok body =>
    match env.rows.positions body with
    | .error e => .error (.parse e)
    | .ok positions => .ok (positions.map (fun p => { p with SessionKey := sessionKey }))

/-- The function `fetchLapsFromAPI`. -/
def fetchLapsFromAPI (env : Env) (sessionKey : Int) : Except PopErr (List Lap) :=
  match (fetchUrl env (.laps sessionKey)).result with
  | .error e => .error (.fetch e)
  | .ok body =>
    match env.rows.laps body with
    | .error e => .error (.parse e)
    | .ok laps => .ok (laps.map (fun l => { l with SessionKey := sessionKey }))

/-- The shared buffers of the fan-out and the record of its fetches. -/
structure FanOut where
  allPositions : List Position
  allLaps : List Lap
  fetched : List Endpoint
  gets : Nat

/-- The body of the goroutine started for one session: positions, then laps;
a failed fetch is logged and contributes no rows. -/
def sessionWorker (env : Env) (acc : FanOut) (s : Session) : FanOut :=
  { allPositions := acc.allPositions ++ rowsOrNone (fetchPositionsFromAPI env s.SessionKey)
    allLaps := acc.allLaps ++ rowsOrNone (fetchLapsFromAPI env s.SessionKey)
    fetched := acc.fetched ++ [.position s.SessionKey, .laps s.SessionKey]
    gets := acc.gets + (fetchUrl env (.position s.SessionKey)).calls
      + (fetchUrl env (.laps s.SessionKey)).calls }

/-- The constant `batchSize`. -/
def batchSize : Nat := 1000

/-- A table during a chunked insert, with the ranges of the `CreateInBatches`
calls issued so far and the counter of inserted rows. -/
structure BatchRun (α : Type) where
  table : List α
  calls : List (Nat × Nat)
  inserted : Nat

/-- The loop `for i := 0; i < len(all); i += batchSize`, started at offset `i`
with `fuel` iterations allowed.  Each iteration inserts the slice
`all[i:end]`; a failed insert is logged and the loop goes on. -/
def insertBatches {α : Type} (ok : Nat → Bool) (all : List α) :
    Nat → Nat → BatchRun α → BatchRun α
  | 0, _, r => r
  | fuel + 1, i, r =>
    if i < all.length then
      let e := if i + batchSize > all.length then all.length else i + batchSize
      let batch := (all.drop i).take (e - i)
      let r' : BatchRun α :=
        if ok i then ⟨r.table ++ batch, r.calls ++ [(i, e)], r.inserted + batch.length⟩
        else ⟨r.table, r.calls ++ [(i, e)], r.inserted⟩
      insertBatches ok all fuel (i + batchSize) r'
    else r

/-- The bulk insert of the collected rows into `table`: nothing when the list
is empty, else the chunk loop (which needs at most `len(all)` iterations). -/
def bulkInsert {α : Type} (ok : Nat → Bool) (all : List α) (table : List α) : BatchRun α :=
  if all.length > 0 then insertBatches ok all all.length 0 ⟨table, [], 0⟩
  else ⟨table, [], 0⟩

/-- The function `autoPopulatePositionsAndLapsIfNeeded`.  The goroutines append to the
shared buffers under a mutex in an order fixed by the scheduler; the sessions
are processed here one after the other, in table order.  The interleavings of
the goroutines are the runs of the transition system `step` further down. -/
def autoPopulatePositionsAndLapsIfNeeded (env : Env) (s : PopState) : PopState :=
  if s.store.positions.length > 0 && s.store.laps.length > 0 then s
  else
    let sessions := s.store.sessions
    if sessions.length = 0 then s
    else
      let fan := sessions.foldl (sessionWorker env) ⟨[], [], s.fetched, s.gets⟩
      let pos := bulkInsert (env.insertOk .positions) fan.allPositions s.store.positions
      let lap := bulkInsert (env.insertOk .laps) fan.allLaps s.store.laps
      { store := { s.store with positions := pos.table, laps := lap.table }
        fetched := fan.fetched
        gets := fan.gets
        inserts := s.inserts ++ pos.calls.map (fun c => (Table.positions, c.1, c.2))
          ++ lap.calls.map (fun c => (Table.laps, c.1, c.2)) }

/-- The population part of `startServer`: the three steps in order, on the
store as found at startup. -/
def populate (env : Env) (st : Store) : Except Abort PopState :=
  let s1 := autoPopulateDriversIfNeeded env ⟨st, [], 0, []⟩
  match autoPopulateSessionsIfNeeded env s1 with
  | .error a => .error a
  | .ok s2 => .ok (autoPopulatePositionsAndLapsIfNeeded env s2)

/-! ## Sample environment -/

/-- The bytes of an ASCII text. -/
def asciiBytes (s : String) : List Nat := s.toList.map Char.toNat

/-- A sessions payload with one race. -/
def sessionsDoc : List Nat := asciiBytes
  "[\x7b\x22session_key\x22:9472,\x22session_name\x22:\x22Race\x22,\x22session_type\x22:\x22Race\x22,\x22location\x22:\x22Sakhir\x22,\x22country_name\x22:\x22Bahrain\x22,\x22year\x22:2024,\x22circuit_short_name\x22:\x22Sakhir\x22,\x22date_start\x22:\x222024-03-02T15:00:00\x22\x7d]"

/-- A positions payload with two rows; the first one reports session key 1. -/
def positionsDoc : List Nat := asciiBytes
  "[\x7b\x22driver_number\x22:44,\x22session_key\x22:1,\x22position\x22:3,\x22date\x22:\x222024-03-02T15:40:00\x22\x7d,\x7b\x22driver_number\x22:1,\x22session_key\x22:9472,\x22position\x22:1,\x22date\x22:\x222024-03-02T15:40:00\x22\x7d]"

/-- A laps payload with one row, reporting session key 7. -/
def lapsDoc : List Nat := asciiBytes
  "[\x7b\x22driver_number\x22:1,\x22session_key\x22:7,\x22lap_number\x22:3,\x22lap_duration\x22:95.5,\x22duration_sector_1\x22:30.1,\x22duration_sector_2\x22:35.2,\x22duration_sector_3\x22:30.2,\x22st_speed\x22:311,\x22date_start\x22:\x222024-03-02T15:03:12\x22\x7d]"

/-- A JSON library for concrete population runs.  It knows the three sample
payloads, each a valid non-empty array; as `fetchWithRetry` looks at the outer
value only, the elements are abbreviated to empty objects. -/
def demoJson : JsonLib where
  valid b := b == sessionsDoc || b == positionsDoc || b == lapsDoc
  unmarshal b :=
    if b == sessionsDoc then .ok (.array [.object []])
    else if b == positionsDoc then .ok (.array [.object [], .object []])
    else if b == lapsDoc then .ok (.array [.object []])
    else .error "invalid character"

/-- The typed decoding of the sample payloads (durations in milliseconds,
speeds in km/h). -/
def demoRows : RowDecoders where
  drivers _ := .error "cannot unmarshal"
  sessions b :=
    if b == sessionsDoc then
      .ok [⟨9472, "Race", "Race", "Sakhir", "Bahrain", 2024, "Sakhir", "2024-03-02T15:00:00"⟩]
    else .error "cannot unmarshal"
  positions b :=
    if b == positionsDoc then
      .ok [⟨44, 1, 3, "2024-03-02T15:40:00"⟩, ⟨1, 9472, 1, "2024-03-02T15:40:00"⟩]
    else .error "cannot unmarshal"
  laps b :=
    if b == lapsDoc then .ok [⟨1, 7, 3, 95500, 30100, 35200, 30200, 311, "2024-03-02T15:03:12"⟩]
    else .error "cannot unmarshal"

/-- A provider that answers the sessions, positions and laps URLs with the
sample payloads on the first call, and the drivers URL with status 404. -/
def demoNet : Endpoint → Nat → HttpResult
  | .sessions, _ => .response 200 (.bytes sessionsDoc)
  | .position _, _ => .response 200 (.bytes positionsDoc)
  | .laps _, _ => .response 200 (.bytes lapsDoc)
  | .drivers _, _ => .response 404 (.bytes [])

/-- The sample provider with a store that accepts every insert. -/
def demoEnv : Env := ⟨demoJson, demoRows, demoNet, fun _ _ => true⟩

/-- The sample provider with a store that rejects the insert into the Session
table (as it does, for instance, on a repeated primary key). -/
def rejectingEnv : Env :=
  ⟨demoJson, demoRows, demoNet, fun t _ => !(t == Table.sessions)⟩

/-- A store with no rows at all. -/
def emptyStore : Store := ⟨[], [], [], [], sqliteTextEq⟩

/-- A store holding one session and one Position row but no Lap row. -/
def positionsOnlyStore : Store where
  drivers := [⟨44, "Lewis", "Hamilton", "HAM", "Mercedes", "GBR"⟩]
  sessions := [⟨9472, "Race", "Race", "Sakhir", "Bahrain", 2024, "Sakhir", "2024-03-02T15:00:00"⟩]
  positions := [⟨44, 9472, 2, "2024-03-02T15:20:00"⟩]
  laps := []
  textEq := sqliteTextEq

/-- Network that answers every call with status 500. -/
def netAlways500 : Nat → HttpResult :=
  fun _ => .response 500 (.bytes [])

/-- Whether a list of result entries is a season leaderboard: at most three
entries, counts non-increasing, ranks 1, 2, 3 in order. -/
def IsLeaderboard (lb : List LeaderEntry) : Prop :=
  lb.length ≤ 3 ∧ lb.Pairwise (fun a b => b.count ≤ a.count) ∧
    ∀ (i : Nat) (h : i < lb.length), (lb.get ⟨i, h⟩).position = i + 1

/-- The sample store with a third driver, number 16, who is classified in the
race but has no Lap row. -/
def noLapStore : Store where
  drivers := sampleStore.drivers ++ [⟨16, "Charles", "Leclerc", "LEC", "Ferrari", "MON"⟩]
  sessions := sampleStore.sessions
  positions := sampleStore.positions ++ [⟨16, 9472, 3, "2024-03-02T15:20:00"⟩]
  laps := sampleStore.laps
  textEq := sqliteTextEq

/-! ## Reference description of the chunked insert -/

/-- The capacity of the channel made by `make(chan struct{}, 5)`. -/
def semCapacity : Nat := 5

/-- Where a worker goroutine stands: blocked or about to send on `sem`, past
the send and fetching positions, fetching laps, running its deferred receive
from `sem`, or returned. -/
inductive Phase where
  | atGate
  | fetchingPositions
  | fetchingLaps
  | releasing
  | done
  deriving DecidableEq, Repr

/-- A worker goroutine: the session it was started for and its phase. -/
structure Worker where
  session : Session
  phase : Phase
  deriving DecidableEq, Repr

/-- The state shared by the goroutines: the sessions the `for` loop has not
reached yet, the workers started so far, the number of elements buffered in
`sem`, and the two result slices. -/
structure FanState where
  pending : List Session
  workers : List Worker
  sem : Nat
  allPositions : List Position
  allLaps : List Lap

/-- One scheduling step: the main loop starts the next worker, or worker `i`
takes its next step. -/
inductive Action where
  | spawn
  | acquire (i : Nat)
  | positionsDone (i : Nat)
  | lapsDone (i : Nat)
  | release (i : Nat)
  deriving DecidableEq, Repr

/-- The state before the `for` loop. -/
def initFan (sessions : List Session) : FanState :=
  ⟨sessions, [], 0, [], []⟩

/-- Whether a worker is past the send on `sem` and has not yet received from
it. -/
def pastGate (w : Worker) : Bool :=
  w.phase == .fetchingPositions || w.phase == .fetchingLaps || w.phase == .releasing

/-- The effect of an action, or `none` when the action is not enabled in the
state. -/
def step (env : Env) (s : FanState) : Action → Option FanState
  | .spawn =>
    match s.pending with
    | [] => none
    | x :: rest => some { s with pending := rest, workers := s.workers ++ [⟨x, .atGate⟩] }
  | .acquire i =>
    match s.workers.get? i with
    | none => none
    | some w =>
      if w.phase = .atGate ∧ s.sem < semCapacity then
        some { s with workers := s.workers.set i ⟨w.session, .fetchingPositions⟩,
                      sem := s.sem + 1 }
      else none
  | .positionsDone i =>
    match s.workers.get? i with
    | none => none
    | some w =>
      if w.phase = .fetchingPositions then
        some { s with workers := s.workers.set i ⟨w.session, .fetchingLaps⟩,
                      allPositions := s.allPositions ++
                        rowsOrNone (fetchPositionsFromAPI env w.session.SessionKey) }
      else none
  | .lapsDone i =>
    match s.workers.get? i with
    | none => none
    | some w =>
      if w.phase = .fetchingLaps then
        some { s with workers := s.workers.set i ⟨w.session, .releasing⟩,
                      allLaps := s.allLaps ++
                        rowsOrNone (fetchLapsFromAPI env w.session.SessionKey) }
      else none
  | .release i =>
    match s.workers.get? i with
    | none => none
    | some w =>
      if w.phase = .releasing ∧ 0 < s.sem then
        some { s with workers := s.workers.set i ⟨w.session, .done⟩, sem := s.sem - 1 }
      else none

/-- The state reached by a schedule, or `none` when one of its actions is not
enabled where it is taken. -/
def run (env : Env) : FanState → List Action → Option FanState
  | s, [] => some s
  | s, a :: rest =>
    match step env s a with
    | none => none
    | some s' => run env s' rest

/-- The condition under which `wg.Wait()` returns: every session has a worker
and every worker has returned. -/
def finished (s : FanState) : Bool :=
  s.pending.isEmpty && s.workers.all (fun w => w.phase == .done)

/-- The rows a positions fetch contributes: those returned when it succeeds,
none when it fails. -/
def positionRowsOf (env : Env) (x : Session) : List Position :=
  rowsOrNone (fetchPositionsFromAPI env x.SessionKey)

/-- The rows a laps fetch contributes: those returned when it succeeds, none
when it fails. -/
def lapRowsOf (env : Env) (x : Session) : List Lap :=
  rowsOrNone (fetchLapsFromAPI env x.SessionKey)

/-- The schedule that runs the workers one after the other: for each pending
session, start its worker (which gets index `i`) and let it run to its end. -/
def sequentialSchedule : Nat → List Session → List Action
  | _, [] => []
  | i, _ :: rest =>
    [.spawn, .acquire i, .positionsDone i, .lapsDone i, .release i]
      ++ sequentialSchedule (i + 1) rest

/-- A session row that only matters through its key. -/
def raceWithKey (k : Int) : Session := ⟨k, "Race", "Race", "", "", 2024, "", ""⟩

/-- Seven cached sessions. -/
def sevenSessions : List Session :=
  [raceWithKey 1, raceWithKey 2, raceWithKey 3, raceWithKey 4, raceWithKey 5, raceWithKey 6,
    raceWithKey 7]

/-- A schedule on seven sessions: all workers are started and the first five
pass the gate. -/
def fiveAdmitted : List Action :=
  [.spawn, .spawn, .spawn, .spawn, .spawn, .spawn, .spawn,
    .acquire 0, .acquire 1, .acquire 2, .acquire 3, .acquire 4]

/-- A provider like the sample one, except that the positions URL of session 1
is always answered with status 500. -/
def flakyNet : Endpoint → Nat → HttpResult
  | .position 1, _ => .response 500 (.bytes [])
  | url, i => demoNet url i

/-- The environment of the provider that fails the positions of session 1. -/
def flakyEnv : Env := ⟨demoJson, demoRows, flakyNet, fun _ _ => true⟩

/-- A complete schedule on the sessions 1 and 2 in which the two workers
interleave and the worker of session 2 appends its laps first. -/
def interleaved : List Action :=
  [.spawn, .spawn, .acquire 1, .acquire 0, .positionsDone 1, .positionsDone 0,
    .lapsDone 1, .release 1, .lapsDone 0, .release 0]

/-- Whether the worker has made its append to `allPositions` (or logged the
failed fetch). -/
def positionsAppended (w : Worker) : Bool :=
  w.phase == .fetchingLaps || w.phase == .releasing || w.phase == .done

/-- Whether the worker has made its append to `allLaps` (or logged the failed
fetch). -/
def lapsAppended (w : Worker) : Bool :=
  w.phase == .releasing || w.phase == .done

/-- What holds in every state of the fan-out started on `sessions`: the
workers past the gate are as many as the elements buffered in `sem`, which are
at most its capacity; the workers started and the sessions pending are the
cached sessions in order; and each result slice holds, up to order, the rows
contributed by the workers that have made their append. -/
structure FanInv (env : Env) (sessions : List Session) (s : FanState) : Prop where
  gate : s.workers.countP pastGate = s.sem
  cap : s.sem ≤ semCapacity
  covers : s.workers.map (fun w => w.session) ++ s.pending = sessions
  pos : s.allPositions.Perm (s.workers.flatMap
    (fun w => if positionsAppended w then positionRowsOf env w.session else []))
  laps : s.allLaps.Perm (s.workers.flatMap
    (fun w => if lapsAppended w then lapRowsOf env w.session else []))

/-- The rows returned by the positions fetches that succeeded, session by
session. -/
def succeededPositionRows (env : Env) (sessions : List Session) : List Position :=
  (sessions.filterMap (fun x =>
    match fetchPositionsFromAPI env x.SessionKey with
    | .ok rows => some rows
    | .error _ => none)).flatten

/-- The rows returned by the laps fetches that succeeded, session by session. -/
def succeededLapRows (env : Env) (sessions : List Session) : List Lap :=
  (sessions.filterMap (fun x =>
    match fetchLapsFromAPI env x.SessionKey with
    | .ok rows => some rows
    | .error _ => none)).flatten

/-- The state reached by `fiveAdmitted` on `sevenSessions`: five workers past
the gate, two waiting at it, `sem` full. -/
def fiveAdmittedState : FanState where
  pending := []
  workers := [⟨raceWithKey 1, .fetchingPositions⟩, ⟨raceWithKey 2, .fetchingPositions⟩,
    ⟨raceWithKey 3, .fetchingPositions⟩, ⟨raceWithKey 4, .fetchingPositions⟩,
    ⟨raceWithKey 5, .fetchingPositions⟩, ⟨raceWithKey 6, .atGate⟩, ⟨raceWithKey 7, .atGate⟩]
  sem := 5
  allPositions := []
  allLaps := []

/-- The state reached by `interleaved` on the sessions 1 and 2 with the
provider that fails the positions of session 1. -/
def interleavedState : FanState where
  pending := []
  workers := [⟨raceWithKey 1, .done⟩, ⟨raceWithKey 2, .done⟩]
  sem := 0
  allPositions := [⟨44, 2, 3, "2024-03-02T15:40:00"⟩, ⟨1, 2, 1, "2024-03-02T15:40:00"⟩]
  allLaps := [⟨1, 2, 3, 95500, 30100, 35200, 30200, 311, "2024-03-02T15:03:12"⟩,
    ⟨1, 1, 3, 95500, 30100, 35200, 30200, 311, "2024-03-02T15:03:12"⟩]

/-- The number of steps a worker still has to take. -/
def stepsLeft : Phase → Nat
  | .atGate => 4
  | .fetchingPositions => 3
  | .fetchingLaps => 2
  | .releasing => 1
  | .done => 0

/-- The number of steps the fan-out still has to take before `wg.Wait()`
returns: five per session not yet started (the start of its worker and the
worker's four steps), and the steps left of the workers started. -/
def workLeft (s : FanState) : Nat :=
  5 * s.pending.length + (s.workers.map (fun w => stepsLeft w.phase)).sum

/-! ### Lemmas on single attempts -/

theorem checkBody_none_of_yields {lib : JsonLib} {r : HttpResult} {b : List Nat}
    (h : attemptYields lib r b) : checkBody lib b = none := by
  obtain ⟨-, hne, hv, v, hu, ha, ho⟩ := h
  have hlen : b.length ≠ 0 := by
    intro h0
    exact hne (List.length_eq_zero.mp h0)
  simp only [checkBody, hlen, if_false, hv, hu]
  cases v with
  | array items => cases items with
    | nil => exact absurd rfl ha
    | cons x xs => simp [emptyCollection]
  | object fields => cases fields with
    | nil => exact absurd rfl ho
    | cons x xs => simp [emptyCollection]
  | _ => simp [emptyCollection]

theorem checkBody_some_of_fails {lib : JsonLib} {b : List Nat}
    (h : b = [] ∨ lib.valid b = false ∨ (∃ e, lib.unmarshal b = .error e) ∨
      lib.unmarshal b = .ok (.array []) ∨ lib.unmarshal b = .ok (.object [])) :
    ∃ e, checkBody lib b = some e := by
  unfold checkBody
  by_cases h0 : b.length = 0
  · exact ⟨.emptyBody, by simp [h0]⟩
  · by_cases hv : lib.valid b = true
    · have hb : b ≠ [] := fun hb => h0 (by simp [hb])
      rcases h with h | h | ⟨e, h⟩ | h | h
      · exact absurd h hb
      · simp [hv] at h
      · exact ⟨.unmarshalErr e, by simp [h0, hv, h]⟩
      · exact ⟨.emptyArray, by simp [h0, hv, h, emptyCollection]⟩
      · exact ⟨.emptyObject, by simp [h0, hv, h, emptyCollection]⟩
    · exact ⟨.invalidJson, by simp [h0, hv]⟩

/-- Unfolding of one iteration on a response whose status is not 200. -/
theorem fetchLoop_status {lib : JsonLib} {net : Nat → HttpResult} {mr : Int}
    (n i : Nat) (err : Option String) (bo sl : Nat) {status : Nat} {body : BodyRead}
    (hr : net i = .response status body) (hs : status ≠ 200) :
    fetchLoop lib net mr (n + 1) i err bo sl =
      if (i : Int) < mr - 1 then fetchLoop lib net mr n (i + 1) none (bo * 2) (sl + bo)
      else fetchLoop lib net mr n (i + 1) none bo sl := by
  rw [fetchLoop]
  simp only [hr]
  split
  · rename_i heq; cases heq; exact absurd rfl hs
  · rename_i heq; cases heq; exact absurd rfl hs
  · simp
  · rename_i heq; cases heq

/-- A successful attempt ends the loop with its body, after one more call. -/
theorem fetchLoop_yields {lib : JsonLib} {net : Nat → HttpResult} {mr : Int} {b : List Nat}
    (n i : Nat) (err : Option String) (bo sl : Nat) (h : attemptYields lib (net i) b) :
    fetchLoop lib net mr (n + 1) i err bo sl = ⟨.ok b, i + 1, sl⟩ := by
  have hc := checkBody_none_of_yields h
  simp only [fetchLoop, h.1, hc]

/-- A failed attempt that is not the last one moves on to the next call. -/
theorem fetchLoop_fails_more {lib : JsonLib} {net : Nat → HttpResult} (mr : Int)
    (n i : Nat) (err : Option String) (bo sl : Nat) (h : attemptFails lib (net i))
    (hi : (i : Int) < mr - 1) :
    ∃ err', fetchLoop lib net mr (n + 1) i err bo sl =
      fetchLoop lib net mr n (i + 1) err' (bo * 2) (sl + bo) := by
  cases hr : net i with
  | transportErr e => exact ⟨some e, by simp [fetchLoop, hr, hi]⟩
  | response status body =>
    rw [hr] at h
    refine ⟨none, ?_⟩
    by_cases hs : status = 200
    · subst hs
      cases body with
      | readErr e => simp [fetchLoop, hr, hi]
      | bytes b =>
        have hb := h.resolve_left (by simp)
        obtain ⟨e, he⟩ := checkBody_some_of_fails hb
        simp [fetchLoop, hr, hi, he]
    · rw [fetchLoop_status n i err bo sl hr hs, if_pos hi]

/-- A failed last attempt ends the loop with an error, after one more call. -/
theorem fetchLoop_fails_last {lib : JsonLib} {net : Nat → HttpResult} (mr : Int)
    (i : Nat) (err : Option String) (bo sl : Nat) (h : attemptFails lib (net i))
    (hi : ¬ (i : Int) < mr - 1) :
    ∃ e, fetchLoop lib net mr 1 i err bo sl = ⟨.error e, i + 1, sl⟩ := by
  cases hr : net i with
  | transportErr e => exact ⟨.exhausted mr (some e), by simp [fetchLoop, hr, hi]⟩
  | response status body =>
    rw [hr] at h
    by_cases hs : status = 200
    · subst hs
      cases body with
      | readErr e => exact ⟨.readErr e, by simp [fetchLoop, hr, hi]⟩
      | bytes b =>
        have hb := h.resolve_left (by simp)
        obtain ⟨e, he⟩ := checkBody_some_of_fails hb
        exact ⟨e, by simp [fetchLoop, hr, hi, he]⟩
    · refine ⟨.exhausted mr none, ?_⟩
      rw [fetchLoop_status 0 i err bo sl hr hs, if_neg hi]
      simp [fetchLoop]

/-- C1. With `maxRetries = 3`: when the first two attempts fail and the third
carries an accepted payload `b`, `fetchWithRetry` returns exactly `b` after
exactly 3 `http.Get` calls; when all three attempts fail it returns an error
after exactly 3 calls (the call counter stops at 3, so there is no fourth). -/
theorem fetchWithRetry_three_attempts (lib : JsonLib) (net : Nat → HttpResult)
    (h0 : attemptFails lib (net 0)) (h1 : attemptFails lib (net 1)) :
    (∀ b, attemptYields lib (net 2) b →
      (fetchWithRetry lib net 3).result = .ok b ∧ (fetchWithRetry lib net 3).calls = 3) ∧
    (attemptFails lib (net 2) →
      (∃ e, (fetchWithRetry lib net 3).result = .error e) ∧
        (fetchWithRetry lib net 3).calls = 3) := by
  have e3 : (3 : Int).toNat = 3 := rfl
  obtain ⟨err1, s1⟩ := fetchLoop_fails_more 3 2 0 none 1 0 h0 (by norm_num)
  obtain ⟨err2, s2⟩ := fetchLoop_fails_more 3 1 1 err1 (1 * 2) (0 + 1) h1 (by norm_num)
  have hrun : fetchWithRetry lib net 3 =
      fetchLoop lib net 3 1 2 err2 (1 * 2 * 2) (0 + 1 + 1 * 2) := by
    unfold fetchWithRetry
    rw [e3, s1, s2]
  refine ⟨fun b hb => ?_, fun h2 => ?_⟩
  · rw [hrun, fetchLoop_yields 0 2 err2 _ _ hb]
    exact ⟨rfl, rfl⟩
  · obtain ⟨e, he⟩ := fetchLoop_fails_last 3 2 err2 (1 * 2 * 2) (0 + 1 + 1 * 2) h2
      (by norm_num)
    rw [hrun, he]
    exact ⟨⟨e, rfl⟩, rfl⟩

/-! ### Lemmas on `ORDER BY` -/

section OrderLemmas

variable {α κ₁ κ₂ : Type}

theorem orderBy_perm (le : α → α → Bool) (rows : List α) : (orderBy le rows).Perm rows :=
  List.perm_insertionSort _ rows

theorem mem_orderBy {le : α → α → Bool} {rows : List α} {x : α} :
    x ∈ orderBy le rows ↔ x ∈ rows :=
  (orderBy_perm le rows).mem_iff

theorem orderBy_sorted (le : α → α → Bool) (htot : ∀ a b, le a b = true ∨ le b a = true)
    (htr : ∀ a b c, le a b = true → le b c = true → le a c = true) (rows : List α) :
    List.Sorted (fun a b => le a b = true) (orderBy le rows) := by
  haveI : IsTotal α (fun a b => le a b = true) := ⟨htot⟩
  haveI : IsTrans α (fun a b => le a b = true) := ⟨htr⟩
  exact List.sorted_insertionSort _ rows

/-- The first row of an `ORDER BY` result is a row of the input that the
comparator puts before every row of the input. -/
theorem head_orderBy {le : α → α → Bool} (htot : ∀ a b, le a b = true ∨ le b a = true)
    (htr : ∀ a b c, le a b = true → le b c = true → le a c = true) {rows : List α} {x : α}
    (h : (orderBy le rows).head? = some x) : x ∈ rows ∧ ∀ y ∈ rows, le x y = true := by
  have hs := orderBy_sorted le htot htr rows
  cases hl : orderBy le rows with
  | nil => rw [hl] at h; cases h
  | cons a l =>
    rw [hl] at h hs
    simp only [List.head?_cons, Option.some.injEq] at h
    subst h
    have hmem : ∀ y, y ∈ rows ↔ y ∈ a :: l := fun y => by rw [← hl]; exact mem_orderBy.symm
    refine ⟨(hmem a).2 (List.mem_cons_self _ _), fun y hy => ?_⟩
    rcases List.mem_cons.1 ((hmem y).1 hy) with rfl | hy'
    · exact (htot y y).elim id id
    · exact List.rel_of_sorted_cons hs y hy'

theorem head_orderBy_eq_none {le : α → α → Bool} {rows : List α} :
    (orderBy le rows).head? = none ↔ rows = [] := by
  constructor
  · intro h
    have hnil : orderBy le rows = [] := List.head?_eq_none_iff.1 h
    have := (orderBy_perm le rows).length_eq
    rw [hnil] at this
    exact List.length_eq_zero.1 this.symm
  · rintro rfl
    rfl

theorem head_orderBy_isSome (le : α → α → Bool) {rows : List α} (h : rows ≠ []) :
    ∃ x, (orderBy le rows).head? = some x := by
  cases hx : (orderBy le rows).head? with
  | none => exact absurd (head_orderBy_eq_none.1 hx) h
  | some x => exact ⟨x, rfl⟩

variable [LinearOrder κ₁] [LinearOrder κ₂]

theorem lexAsc_iff (k1 : α → κ₁) (k2 : α → κ₂) (a b : α) :
    lexAsc k1 k2 a b = true ↔ k1 a < k1 b ∨ (k1 a = k1 b ∧ k2 a ≤ k2 b) := by
  simp [lexAsc]

theorem lexDesc_iff (k1 : α → κ₁) (k2 : α → κ₂) (a b : α) :
    lexDesc k1 k2 a b = true ↔ k1 b < k1 a ∨ (k1 a = k1 b ∧ k2 a ≤ k2 b) := by
  simp [lexDesc]

theorem lexAsc_total (k1 : α → κ₁) (k2 : α → κ₂) (a b : α) :
    lexAsc k1 k2 a b = true ∨ lexAsc k1 k2 b a = true := by
  rw [lexAsc_iff, lexAsc_iff]
  rcases lt_trichotomy (k1 a) (k1 b) with h | h | h
  · exact Or.inl (Or.inl h)
  · rcases le_total (k2 a) (k2 b) with h2 | h2
    · exact Or.inl (Or.inr ⟨h, h2⟩)
    · exact Or.inr (Or.inr ⟨h.symm, h2⟩)
  · exact Or.inr (Or.inl h)

theorem lexAsc_trans (k1 : α → κ₁) (k2 : α → κ₂) (a b c : α)
    (hab : lexAsc k1 k2 a b = true) (hbc : lexAsc k1 k2 b c = true) :
    lexAsc k1 k2 a c = true := by
  rw [lexAsc_iff] at *
  rcases hab with h | ⟨h, h2⟩
  · rcases hbc with h' | ⟨h', -⟩
    · exact Or.inl (h.trans h')
    · exact Or.inl (h' ▸ h)
  · rcases hbc with h' | ⟨h', h2'⟩
    · exact Or.inl (h ▸ h')
    · exact Or.inr ⟨h.trans h', h2.trans h2'⟩

theorem lexDesc_total (k1 : α → κ₁) (k2 : α → κ₂) (a b : α) :
    lexDesc k1 k2 a b = true ∨ lexDesc k1 k2 b a = true := by
  rw [lexDesc_iff, lexDesc_iff]
  rcases lt_trichotomy (k1 a) (k1 b) with h | h | h
  · exact Or.inr (Or.inl h)
  · rcases le_total (k2 a) (k2 b) with h2 | h2
    · exact Or.inl (Or.inr ⟨h, h2⟩)
    · exact Or.inr (Or.inr ⟨h.symm, h2⟩)
  · exact Or.inl (Or.inl h)

theorem lexDesc_trans (k1 : α → κ₁) (k2 : α → κ₂) (a b c : α)
    (hab : lexDesc k1 k2 a b = true) (hbc : lexDesc k1 k2 b c = true) :
    lexDesc k1 k2 a c = true := by
  rw [lexDesc_iff] at *
  rcases hab with h | ⟨h, h2⟩
  · rcases hbc with h' | ⟨h', -⟩
    · exact Or.inl (h'.trans h)
    · exact Or.inl (h' ▸ h)
  · rcases hbc with h' | ⟨h', h2'⟩
    · exact Or.inl (h ▸ h')
    · exact Or.inr ⟨h.trans h', h2.trans h2'⟩

/-- First row under `ORDER BY k1 ASC, k2 ASC`: a row with the least `k1`. -/
theorem head_lexAsc {k1 : α → κ₁} {k2 : α → κ₂} {rows : List α} {x : α}
    (h : (orderBy (lexAsc k1 k2) rows).head? = some x) :
    x ∈ rows ∧ ∀ y ∈ rows, k1 x ≤ k1 y := by
  obtain ⟨hx, hall⟩ := head_orderBy (lexAsc_total k1 k2) (lexAsc_trans k1 k2) h
  refine ⟨hx, fun y hy => ?_⟩
  rcases (lexAsc_iff k1 k2 x y).1 (hall y hy) with h1 | ⟨h1, -⟩
  · exact h1.le
  · exact h1.le

/-- First row under `ORDER BY k1 DESC, k2 ASC`: a row with the greatest `k1`. -/
theorem head_lexDesc {k1 : α → κ₁} {k2 : α → κ₂} {rows : List α} {x : α}
    (h : (orderBy (lexDesc k1 k2) rows).head? = some x) :
    x ∈ rows ∧ ∀ y ∈ rows, k1 y ≤ k1 x := by
  obtain ⟨hx, hall⟩ := head_orderBy (lexDesc_total k1 k2) (lexDesc_trans k1 k2) h
  refine ⟨hx, fun y hy => ?_⟩
  rcases (lexDesc_iff k1 k2 x y).1 (hall y hy) with h1 | ⟨h1, -⟩
  · exact h1.le
  · exact h1.ge

end OrderLemmas

/-! ### Lemmas on `sort.Slice` -/

section SortLemmas

variable {α : Type}

theorem insertBack_ok (less : α → α → Except Fault Bool) (x : α) :
    ∀ ys : List α, (∀ y ∈ ys, ∃ v, less x y = .ok v) →
      ∃ r, insertBack less x ys = .ok r ∧ r.Perm (x :: ys)
  | [], _ => ⟨[x], rfl, List.Perm.refl _⟩
  | y :: ys, h => by
    obtain ⟨v, hv⟩ := h y (List.mem_cons_self _ _)
    cases v with
    | false => exact ⟨x :: y :: ys, by simp [insertBack, hv], List.Perm.refl _⟩
    | true =>
      obtain ⟨r, hr, hp⟩ := insertBack_ok less x ys (fun z hz => h z (List.mem_cons_of_mem _ hz))
      refine ⟨y :: r, by simp [insertBack, hv, hr], ?_⟩
      exact (List.Perm.cons y hp).trans (List.Perm.swap x y ys)

theorem sortLoop_ok (less : α → α → Except Fault Bool) :
    ∀ (xs acc : List α), (∀ a ∈ acc ++ xs, ∀ b ∈ acc ++ xs, ∃ v, less a b = .ok v) →
      ∃ r, sortLoop less acc xs = .ok r ∧ r.Perm (acc ++ xs)
  | [], acc, _ => ⟨acc.reverse, rfl, by simp⟩
  | x :: xs, acc, h => by
    obtain ⟨acc', ha, hp⟩ := insertBack_ok less x acc
      (fun y hy => h x (by simp) y (by simp [hy]))
    have hperm : (acc' ++ xs).Perm (acc ++ x :: xs) :=
      (List.Perm.append_right xs hp).trans (by simpa using List.perm_middle.symm)
    obtain ⟨r, hr, hp'⟩ := sortLoop_ok less xs acc'
      (fun a ha' b hb' => h a (hperm.mem_iff.1 ha') b (hperm.mem_iff.1 hb'))
    exact ⟨r, by simp [sortLoop, ha, hr], hp'.trans hperm⟩

/-- When the comparison never panics on the elements of the slice,
`sort.Slice` returns, and what it returns is a rearrangement of the slice. -/
theorem sortSlice_ok {less : α → α → Except Fault Bool} (l : List α)
    (h : ∀ a ∈ l, ∀ b ∈ l, ∃ v, less a b = .ok v) :
    ∃ r, sortSlice less l = .ok r ∧ r.Perm l := by
  cases l with
  | nil => exact ⟨[], rfl, List.Perm.refl _⟩
  | cons x xs =>
    obtain ⟨r, hr, hp⟩ := sortLoop_ok less xs [x] (by simpa using h)
    exact ⟨r, by simpa [sortSlice] using hr, by simpa using hp⟩

/-- When the comparison panics on every pair, `sort.Slice` panics on every
slice of two or more elements. -/
theorem sortSlice_panics {less : α → α → Except Fault Bool} {e : Fault}
    (h : ∀ a b, less a b = .error e) (x y : α) (rest : List α) :
    sortSlice less (x :: y :: rest) = .error e := by
  simp [sortSlice, sortLoop, insertBack, h]

end SortLemmas

/-! ### Fetcher: concrete runs -/

/-- Concrete run for C1: a timeout and a 503 followed by the body `[1]` give
that body after 3 calls; an empty array, a 500 and a transport error give an
error after 3 calls although a fourth call would have succeeded. -/
theorem fetchWithRetry_three_attempts_witness :
    (attemptFails sampleJson (netTwoFailuresThenData 0) ∧
      attemptFails sampleJson (netTwoFailuresThenData 1) ∧
      attemptYields sampleJson (netTwoFailuresThenData 2) [91, 49, 93] ∧
      (fetchWithRetry sampleJson netTwoFailuresThenData 3).result = .ok [91, 49, 93] ∧
      (fetchWithRetry sampleJson netTwoFailuresThenData 3).calls = 3) ∧
    (attemptFails sampleJson (netThreeFailures 0) ∧
      attemptFails sampleJson (netThreeFailures 1) ∧
      attemptFails sampleJson (netThreeFailures 2) ∧
      (∃ e, (fetchWithRetry sampleJson netThreeFailures 3).result = .error e) ∧
      (fetchWithRetry sampleJson netThreeFailures 3).calls = 3) := by
  have a0 : attemptFails sampleJson (netTwoFailuresThenData 0) := trivial
  have a1 : attemptFails sampleJson (netTwoFailuresThenData 1) := Or.inl (by decide)
  have a2 : attemptYields sampleJson (netTwoFailuresThenData 2) [91, 49, 93] :=
    ⟨rfl, by decide, rfl, .array [.number 1], rfl, by simp, by simp⟩
  have b0 : attemptFails sampleJson (netThreeFailures 0) :=
    Or.inr (Or.inr (Or.inr (Or.inr (Or.inl rfl))))
  have b1 : attemptFails sampleJson (netThreeFailures 1) := Or.inl (by decide)
  have b2 : attemptFails sampleJson (netThreeFailures 2) := trivial
  exact ⟨⟨a0, a1, a2,
      (fetchWithRetry_three_attempts sampleJson netTwoFailuresThenData a0 a1).1 _ a2⟩,
    ⟨b0, b1, b2, (fetchWithRetry_three_attempts sampleJson netThreeFailures b0 b1).2 b2⟩⟩

/-- C2 (code behaviour at the failing input). A 200 response whose body is the
JSON document `null` decodes to a value that is neither an array nor an object,
yet `fetchWithRetry` returns that body as data on the first call instead of
counting the attempt as a failure. -/
theorem fetchWithRetry_returns_null_body :
    sampleJson.unmarshal [110, 117, 108, 108] = .ok .null ∧
    (fetchWithRetry sampleJson netNull 3).result = .ok [110, 117, 108, 108] ∧
    (fetchWithRetry sampleJson netNull 3).calls = 1 :=
  ⟨rfl, rfl, rfl⟩

/-- Whatever the JSON library, a non-empty valid body that decodes to a value
other than an empty array or empty object is returned by the first attempt;
this covers `null`, booleans, numbers and strings. -/
theorem fetchWithRetry_accepts_scalar (lib : JsonLib) (net : Nat → HttpResult) (b : List Nat)
    (v : JValue) (hnet : net 0 = .response 200 (.bytes b)) (hb : b ≠ [])
    (hvalid : lib.valid b = true) (hdec : lib.unmarshal b = .ok v)
    (hv : v = .null ∨ (∃ x, v = .bool x) ∨ (∃ x, v = .number x) ∨ ∃ x, v = .str x)
    (mr : Nat) : (fetchWithRetry lib net (mr + 1 : Nat)).result = .ok b := by
  have hy : attemptYields lib (net 0) b := by
    refine ⟨hnet, hb, hvalid, v, hdec, ?_, ?_⟩ <;>
      rcases hv with rfl | ⟨x, rfl⟩ | ⟨x, rfl⟩ | ⟨x, rfl⟩ <;> simp
  unfold fetchWithRetry
  rw [Int.toNat_ofNat, fetchLoop_yields mr 0 none 1 0 hy]

/-! ### `getDriverPositions` -/

theorem dateBefore_panics_of_str (a b : PositionEntry) (s : String) (ha : a.date = .str s) :
    dateBefore a b =
      .error (.panic notTimeMsg) := by
  simp [dateBefore, ha, Dyn.asTime]

theorem positionEntry_date {m : SessionMap} {pos : Position} {e : PositionEntry}
    (h : positionEntry m pos = some e) : e.date = .str pos.Date := by
  unfold positionEntry at h
  cases hm : mapGet? m pos.SessionKey with
  | none => simp [hm] at h
  | some s =>
    simp only [hm, Option.some.injEq] at h
    rw [← h]

/-- As soon as an existing driver has two or more Position rows in cached
sessions, the sort of `getDriverPositions` panics: the entries carry the date
as a string and the comparison asserts it to be a `time.Time`. -/
theorem getDriverPositions_panics (st : Store) (id : String) (driver : Driver)
    (hd : driverByText st id = some driver)
    (h2 : 2 ≤ ((st.positions.filter (fun p => p.DriverNumber == driver.DriverNumber)).filterMap
      (positionEntry (sessionsByKey st.sessions))).length) :
    getDriverPositions st id =
      .error (.panic notTimeMsg) := by
  unfold getDriverPositions
  simp only [hd]
  generalize hl : (st.positions.filter (fun p => p.DriverNumber == driver.DriverNumber)).filterMap
      (positionEntry (sessionsByKey st.sessions)) = l at h2
  match l, hl with
  | [], _ => simp at h2
  | [_], _ => simp at h2
  | x :: y :: rest, hl =>
    have hy : y ∈ (st.positions.filter (fun p => p.DriverNumber == driver.DriverNumber)).filterMap
        (positionEntry (sessionsByKey st.sessions)) := by rw [hl]; simp
    obtain ⟨pos, -, hpos⟩ := List.mem_filterMap.1 hy
    have hdate := positionEntry_date hpos
    simp [sortSlice, sortLoop, insertBack, dateBefore_panics_of_str y x pos.Date hdate]

/-- C3 (code behaviour at the failing input). Driver 44 exists and has two
Position rows in the cached session 9472; `getDriverPositions` does not return
the history but ends in a panic raised by the comparison of the sort. -/
theorem getDriverPositions_two_rows_panics :
    driverByText sampleStore "44" =
      some ⟨44, "Lewis", "Hamilton", "HAM", "Mercedes", "GBR"⟩ ∧
    (sampleStore.positions.filter (fun p => p.DriverNumber == 44)).length = 2 ∧
    getDriverPositions sampleStore "44" =
      .error (.panic notTimeMsg) :=
  ⟨rfl, rfl, rfl⟩

/-! ### `getSeasonSummary` -/

/-- C4 (code behaviour at the failing input). Driver 44 led the race early and
was classified second at the end: the driver won no session (and the driver
detail reports 0 wins), yet the most-wins leaderboard reports a count of 1 for
driver 44, because the query counts every row with position 1. -/
theorem seasonSummary_wins_counts_rows :
    (getSeasonSummary sampleStore).top_3_winners =
      [⟨1, "Max Verstappen", "Red Bull Racing", "NED", 1⟩,
       ⟨2, "Lewis Hamilton", "Mercedes", "GBR", 1⟩] ∧
    specFinalWins sampleStore 44 = 0 ∧
    (finalPositionOf sampleStore 9472 44).map (fun p => p.Position) = some 2 ∧
    (getDriverDetail sampleStore "44").map (fun d => d.performance_summary.wins) = .ok 0 := by
  refine ⟨by decide, by decide, by decide, rfl⟩

/-- C5 (code behaviour at the failing input). In session 9472 the minimum
positive-duration lap belongs to driver 1, but the most-fastest-laps
leaderboard credits the session to driver 44, whose zero-duration row is the
minimum of the unfiltered `MIN(lap_duration)`. -/
theorem seasonSummary_fastest_picks_zero_lap :
    (getSeasonSummary sampleStore).top_3_fastest_laps =
      [⟨1, "Lewis Hamilton", "Mercedes", "GBR", 1⟩] ∧
    (fastestLapOf sampleStore 9472).map (fun l => (l.DriverNumber, l.LapDuration)) =
      some (1, 96500) ∧
    (getSessionDetail sampleStore "9472").map (fun d => d.fastest_lap.driver) =
      .ok "Max Verstappen" := by
  refine ⟨by decide, by decide, rfl⟩

/-! ### The session map -/

theorem mapSet_keys (m : SessionMap) (k : Int) (v : Session) :
    (mapSet m k v).map Prod.fst =
      if k ∈ m.map Prod.fst then m.map Prod.fst else m.map Prod.fst ++ [k] := by
  unfold mapSet
  by_cases h : m.any (fun e => e.1 == k) = true
  · have hk : k ∈ m.map Prod.fst := by
      obtain ⟨e, he, hek⟩ := List.any_eq_true.1 h
      exact List.mem_map.2 ⟨e, he, by simpa using hek⟩
    rw [if_pos h, if_pos hk, List.map_map]
    apply List.map_congr_left
    intro e _
    by_cases hek : e.1 = k <;> simp [hek]
  · have hk : k ∉ m.map Prod.fst := by
      intro hk
      obtain ⟨e, he, hek⟩ := List.mem_map.1 hk
      exact h (List.any_eq_true.2 ⟨e, he, by simpa using hek⟩)
    rw [if_neg h, if_neg hk]
    simp

theorem foldl_mapSet_keys (l : List Session) :
    ∀ m : SessionMap, (m.map Prod.fst).Nodup →
      ((l.foldl (fun m s => mapSet m s.SessionKey s) m).map Prod.fst).Nodup ∧
      ∀ k, k ∈ (l.foldl (fun m s => mapSet m s.SessionKey s) m).map Prod.fst ↔
        k ∈ m.map Prod.fst ∨ k ∈ l.map (fun s => s.SessionKey) := by
  induction l with
  | nil => intro m hm; exact ⟨hm, fun k => by simp⟩
  | cons s l ih =>
    intro m hm
    have hkeys := mapSet_keys m s.SessionKey s
    have hnd : ((mapSet m s.SessionKey s).map Prod.fst).Nodup := by
      rw [hkeys]
      by_cases h : s.SessionKey ∈ m.map Prod.fst
      · rw [if_pos h]; exact hm
      · rw [if_neg h]
        exact List.nodup_append.2 ⟨hm, List.nodup_singleton _, by simpa using h⟩
    obtain ⟨h1, h2⟩ := ih (mapSet m s.SessionKey s) hnd
    refine ⟨h1, fun k => ?_⟩
    rw [List.foldl_cons, h2 k, hkeys]
    by_cases h : s.SessionKey ∈ m.map Prod.fst
    · rw [if_pos h]
      simp only [List.map_cons, List.mem_cons]
      constructor
      · rintro (hk | hk)
        · exact Or.inl hk
        · exact Or.inr (Or.inr hk)
      · rintro (hk | hk | hk)
        · exact Or.inl hk
        · exact Or.inl (hk ▸ h)
        · exact Or.inr hk
    · rw [if_neg h]
      simp only [List.map_cons, List.mem_cons, List.mem_append, List.mem_singleton]
      tauto

/-- The keys of `sessionsByKey` are, up to order, the distinct session keys. -/
theorem sessionsByKey_keys_perm (st : Store) :
    ((sessionsByKey st.sessions).map Prod.fst).Perm (cachedSessionKeys st) := by
  obtain ⟨hnd, hmem⟩ := foldl_mapSet_keys st.sessions [] List.nodup_nil
  refine (List.perm_ext_iff_of_nodup hnd (List.nodup_dedup _)).2 (fun k => ?_)
  show k ∈ (List.foldl (fun m s => mapSet m s.SessionKey s) [] st.sessions).map Prod.fst ↔
    k ∈ (st.sessions.map (fun s => s.SessionKey)).dedup
  rw [hmem k, List.mem_dedup]
  simp

/-! ### The loop of `getDriverDetail` -/

/-- What the loop over the sessions leaves in its variables: one result per
session in which the driver has a final position, and the two counters. -/
theorem foldl_detailStep (st : Store) (driver : Driver) (es : List (Int × Session)) :
    ∀ acc : DetailAcc,
      (es.foldl (detailStep st driver) acc).results =
        acc.results ++ es.filterMap (fun e =>
          (finalPositionOf st e.1 driver.DriverNumber).map (raceResult st driver e)) ∧
      (es.foldl (detailStep st driver) acc).winCount =
        acc.winCount + es.countP (fun e =>
          (finalPositionOf st e.1 driver.DriverNumber).any (fun p => p.Position == 1)) ∧
      (es.foldl (detailStep st driver) acc).top3Count =
        acc.top3Count + es.countP (fun e =>
          (finalPositionOf st e.1 driver.DriverNumber).any (fun p => decide (p.Position ≤ 3))) := by
  induction es with
  | nil => intro acc; simp
  | cons e es ih =>
    intro acc
    obtain ⟨h1, h2, h3⟩ := ih (detailStep st driver acc e)
    rw [List.foldl_cons, h1, h2, h3]
    cases hf : finalPositionOf st e.1 driver.DriverNumber with
    | none => simp [detailStep, hf]
    | some fp =>
      refine ⟨by simp [detailStep, hf], ?_, ?_⟩
      · by_cases hp : fp.Position = 1
        · simp [detailStep, hf, hp, List.countP_cons]
          omega
        · simp [detailStep, hf, hp, List.countP_cons]
      · by_cases hp : fp.Position ≤ 3
        · simp [detailStep, hf, hp, List.countP_cons]
          omega
        · simp [detailStep, hf, hp, List.countP_cons]

theorem finalPositionOf_isSome_iff (st : Store) (k : Int) (d : Nat) :
    (finalPositionOf st k d).isSome = hasPositionRow st d k := by
  unfold finalPositionOf hasPositionRow
  by_cases h : st.positions.any (fun p => p.SessionKey == k && p.DriverNumber == d) = true
  · rw [h]
    obtain ⟨p, hp, hpk⟩ := List.any_eq_true.1 h
    have hne : st.positions.filter (fun p => p.SessionKey == k && p.DriverNumber == d) ≠ [] :=
      List.ne_nil_of_mem (List.mem_filter.2 ⟨hp, hpk⟩)
    obtain ⟨x, hx⟩ := head_orderBy_isSome
      (lexDesc (fun p : Position => strKey p.Date) (fun p => p.DriverNumber)) hne
    rw [hx]
    rfl
  · have hnil : st.positions.filter (fun p => p.SessionKey == k && p.DriverNumber == d) = [] := by
      rw [List.filter_eq_nil_iff]
      intro p hp hpk
      exact h (List.any_eq_true.2 ⟨p, hp, hpk⟩)
    rw [hnil, Bool.eq_false_iff.2 h]
    rfl

/-- The row selected as final position is a latest row of the driver in the
session. -/
theorem finalPositionOf_latest {st : Store} {k : Int} {d : Nat} {p : Position}
    (h : finalPositionOf st k d = some p) : IsLatestRow st k d p := by
  obtain ⟨hmem, hall⟩ := head_lexDesc h
  obtain ⟨hp, hpk⟩ := List.mem_filter.1 hmem
  simp only [Bool.and_eq_true, beq_iff_eq] at hpk
  refine ⟨hp, hpk.1, hpk.2, fun q hq hqk hqd => ?_⟩
  exact hall q (List.mem_filter.2 ⟨hq, by simp [hqk, hqd]⟩)

/-- The sort of `getDriverDetail` cannot panic: every result was built with an
`int` session key. -/
theorem detail_sort_ok (st : Store) (driver : Driver) :
    ∃ r, sortSlice (sessionDateBefore (sessionsByKey st.sessions))
        (detailLoop st driver).results = .ok r ∧ r.Perm (detailLoop st driver).results := by
  apply sortSlice_ok
  have hres := (foldl_detailStep st driver (sessionsByKey st.sessions) ⟨0, 0, 0, []⟩).1
  have hkey : ∀ a ∈ (detailLoop st driver).results, ∃ k, a.session_key = .int k := by
    intro a ha
    unfold detailLoop at ha
    rw [hres] at ha
    simp only [List.nil_append, List.mem_filterMap, Option.map_eq_some'] at ha
    obtain ⟨e, -, fp, -, rfl⟩ := ha
    exact ⟨e.1, rfl⟩
  intro a ha b hb
  obtain ⟨ka, hka⟩ := hkey a ha
  obtain ⟨kb, hkb⟩ := hkey b hb
  exact ⟨decide (strKey (mapGet (sessionsByKey st.sessions) ka).DateStart <
      strKey (mapGet (sessionsByKey st.sessions) kb).DateStart),
    by simp [sessionDateBefore, hka, hkb, Dyn.asInt]⟩

/-- Shape of a successful `getDriverDetail`: the counters of the loop and a
rearrangement of its results. -/
theorem getDriverDetail_ok {st : Store} {id : String} {driver : Driver}
    (h : lookupDriver st id = .ok driver) :
    ∃ detail, getDriverDetail st id = .ok detail ∧
      detail.driver_id = driver.DriverNumber ∧
      detail.performance_summary.wins = (detailLoop st driver).winCount ∧
      detail.performance_summary.top_3_finishes = (detailLoop st driver).top3Count ∧
      detail.race_results.Perm (detailLoop st driver).results := by
  obtain ⟨r, hr, hp⟩ := detail_sort_ok st driver
  refine ⟨⟨driver.DriverNumber, ⟨_, _, (detailLoop st driver).maxSpeed⟩, r⟩, ?_, rfl, rfl, rfl, hp⟩
  simp [getDriverDetail, h, hr]

/-- Counting map entries by a property of the key is counting the distinct
cached session keys. -/
theorem countP_sessionsByKey (st : Store) (q : Int → Bool) :
    (sessionsByKey st.sessions).countP (fun e => q e.1) =
      ((cachedSessionKeys st).filter q).length := by
  rw [← List.countP_eq_length_filter, ← (sessionsByKey_keys_perm st).countP_eq q,
    List.countP_map]
  rfl

theorem mem_detailLoop_results {st : Store} {driver : Driver} {r : RaceResult} :
    r ∈ (detailLoop st driver).results ↔
      ∃ e ∈ sessionsByKey st.sessions, ∃ fp,
        finalPositionOf st e.1 driver.DriverNumber = some fp ∧ raceResult st driver e fp = r := by
  unfold detailLoop
  rw [(foldl_detailStep st driver (sessionsByKey st.sessions) ⟨0, 0, 0, []⟩).1]
  simp only [List.nil_append, List.mem_filterMap, Option.map_eq_some']

theorem mem_cachedSessionKeys_of_entry {st : Store} {e : Int × Session}
    (he : e ∈ sessionsByKey st.sessions) : e.1 ∈ cachedSessionKeys st :=
  (sessionsByKey_keys_perm st).mem_iff.1 (List.mem_map.2 ⟨e, he, rfl⟩)

/-- C6. For a driver found by the lookup, `getDriverDetail` returns, and in
what it returns wins ≤ top-3 count ≤ number of per-session results, the latter
being the number of distinct cached sessions that have at least one Position
row of the driver. -/
theorem driverDetail_wins_le_top3_le_results (st : Store) (id : String) (driver : Driver)
    (h : lookupDriver st id = .ok driver) :
    ∃ detail, getDriverDetail st id = .ok detail ∧
      detail.performance_summary.wins ≤ detail.performance_summary.top_3_finishes ∧
      detail.performance_summary.top_3_finishes ≤ detail.race_results.length ∧
      detail.race_results.length =
        ((cachedSessionKeys st).filter (hasPositionRow st driver.DriverNumber)).length := by
  obtain ⟨detail, hok, -, hw, ht, hp⟩ := getDriverDetail_ok h
  obtain ⟨h1, h2, h3⟩ := foldl_detailStep st driver (sessionsByKey st.sessions) ⟨0, 0, 0, []⟩
  have hlen : detail.race_results.length =
      (sessionsByKey st.sessions).countP
        (fun e => hasPositionRow st driver.DriverNumber e.1) := by
    rw [hp.length_eq]
    unfold detailLoop
    rw [h1, List.nil_append, List.length_filterMap_eq_countP]
    apply List.countP_congr
    intro e _
    rw [Option.isSome_map', finalPositionOf_isSome_iff]
  refine ⟨detail, hok, ?_, ?_, ?_⟩
  · rw [hw, ht]
    unfold detailLoop
    rw [h2, h3]
    simp only [Nat.zero_add]
    apply List.countP_mono_left
    intro e _ he
    cases hf : finalPositionOf st e.1 driver.DriverNumber with
    | none => simp [hf] at he
    | some fp =>
      simp only [hf, Option.any_some, beq_iff_eq] at he
      simp [he]
  · rw [ht, hlen]
    unfold detailLoop
    rw [h3]
    simp only [Nat.zero_add]
    apply List.countP_mono_left
    intro e _ he
    rw [← finalPositionOf_isSome_iff]
    cases hf : finalPositionOf st e.1 driver.DriverNumber with
    | none => simp [hf] at he
    | some fp => rfl
  · rw [hlen, countP_sessionsByKey st (hasPositionRow st driver.DriverNumber)]

/-- Concrete run for C6: driver 44 of the sample store has 0 wins, 1 top-3
finish and 1 result. -/
theorem driverDetail_wins_le_top3_le_results_witness :
    lookupDriver sampleStore "44" = .ok ⟨44, "Lewis", "Hamilton", "HAM", "Mercedes", "GBR"⟩ ∧
    ∃ detail, getDriverDetail sampleStore "44" = .ok detail ∧
      detail.performance_summary.wins ≤ detail.performance_summary.top_3_finishes ∧
      detail.performance_summary.top_3_finishes ≤ detail.race_results.length ∧
      detail.race_results.length =
        ((cachedSessionKeys sampleStore).filter (hasPositionRow sampleStore 44)).length :=
  ⟨rfl, driverDetail_wins_le_top3_le_results sampleStore "44" _ rfl⟩

/-- C7. For a driver found by the lookup, `getDriverDetail` returns; every
result entry reports, for a cached session, the position of the row selected
as the driver's final position there, which is a row of the driver in that
session with the greatest timestamp; every cached session with such a row has
an entry; and the win (top-3) counter is the number of distinct cached sessions
whose selected row has position 1 (at most 3). -/
theorem driverDetail_final_position (st : Store) (id : String) (driver : Driver)
    (h : lookupDriver st id = .ok driver) :
    ∃ detail, getDriverDetail st id = .ok detail ∧
      (∀ r ∈ detail.race_results, ∃ k p, r.session_key = .int k ∧ k ∈ cachedSessionKeys st ∧
        finalPositionOf st k driver.DriverNumber = some p ∧
        IsLatestRow st k driver.DriverNumber p ∧ r.position = p.Position) ∧
      (∀ k ∈ cachedSessionKeys st, ∀ p, finalPositionOf st k driver.DriverNumber = some p →
        IsLatestRow st k driver.DriverNumber p ∧
        ∃ r ∈ detail.race_results, r.session_key = .int k ∧ r.position = p.Position) ∧
      detail.performance_summary.wins =
        ((cachedSessionKeys st).filter (fun k =>
          (finalPositionOf st k driver.DriverNumber).any (fun p => p.Position == 1))).length ∧
      detail.performance_summary.top_3_finishes =
        ((cachedSessionKeys st).filter (fun k =>
          (finalPositionOf st k driver.DriverNumber).any
            (fun p => decide (p.Position ≤ 3)))).length := by
  obtain ⟨detail, hok, -, hw, ht, hp⟩ := getDriverDetail_ok h
  obtain ⟨-, h2, h3⟩ := foldl_detailStep st driver (sessionsByKey st.sessions) ⟨0, 0, 0, []⟩
  refine ⟨detail, hok, ?_, ?_, ?_, ?_⟩
  · intro r hr
    obtain ⟨e, he, fp, hfp, rfl⟩ := mem_detailLoop_results.1 (hp.mem_iff.1 hr)
    exact ⟨e.1, fp, rfl, mem_cachedSessionKeys_of_entry he, hfp, finalPositionOf_latest hfp, rfl⟩
  · intro k hk p hfp
    refine ⟨finalPositionOf_latest hfp, ?_⟩
    obtain ⟨e, he, rfl⟩ := List.mem_map.1 ((sessionsByKey_keys_perm st).mem_iff.2 hk)
    exact ⟨raceResult st driver e p,
      hp.mem_iff.2 (mem_detailLoop_results.2 ⟨e, he, p, hfp, rfl⟩), rfl, rfl⟩
  · rw [hw]
    unfold detailLoop
    rw [h2, Nat.zero_add]
    exact countP_sessionsByKey st (fun k =>
      (finalPositionOf st k driver.DriverNumber).any (fun p => p.Position == 1))
  · rw [ht]
    unfold detailLoop
    rw [h3, Nat.zero_add]
    exact countP_sessionsByKey st (fun k =>
      (finalPositionOf st k driver.DriverNumber).any (fun p => decide (p.Position ≤ 3)))

/-- Concrete run for C7: driver 1 of the sample store, whose two rows of
session 9472 end with position 1. -/
theorem driverDetail_final_position_witness :
    lookupDriver sampleStore "1" =
      .ok ⟨1, "Max", "Verstappen", "VER", "Red Bull Racing", "NED"⟩ ∧
    ∃ detail, getDriverDetail sampleStore "1" = .ok detail ∧
      (∀ r ∈ detail.race_results, ∃ k p, r.session_key = .int k ∧
        k ∈ cachedSessionKeys sampleStore ∧
        finalPositionOf sampleStore k 1 = some p ∧
        IsLatestRow sampleStore k 1 p ∧ r.position = p.Position) ∧
      (∀ k ∈ cachedSessionKeys sampleStore, ∀ p, finalPositionOf sampleStore k 1 = some p →
        IsLatestRow sampleStore k 1 p ∧
        ∃ r ∈ detail.race_results, r.session_key = .int k ∧ r.position = p.Position) ∧
      detail.performance_summary.wins =
        ((cachedSessionKeys sampleStore).filter (fun k =>
          (finalPositionOf sampleStore k 1).any (fun p => p.Position == 1))).length ∧
      detail.performance_summary.top_3_finishes =
        ((cachedSessionKeys sampleStore).filter (fun k =>
          (finalPositionOf sampleStore k 1).any (fun p => decide (p.Position ≤ 3)))).length :=
  ⟨rfl, driverDetail_final_position sampleStore "1" _ rfl⟩

/-! ### Fastest laps -/

/-- The lap selected by the session query is a fastest lap of the session. -/
theorem fastestLapOf_fastest {st : Store} {k : Int} {f : Lap}
    (h : fastestLapOf st k = some f) : IsFastestLap st k f := by
  obtain ⟨hmem, hall⟩ := head_lexAsc h
  obtain ⟨hf, hfk⟩ := List.mem_filter.1 hmem
  simp only [Bool.and_eq_true, beq_iff_eq, decide_eq_true_eq] at hfk
  refine ⟨hf, hfk.1, hfk.2, fun l hl hlk hpos => ?_⟩
  exact hall l (List.mem_filter.2 ⟨hl, by simp [hlk, hpos]⟩)

/-- The session query finds a lap as soon as the session has a lap of
positive duration. -/
theorem fastestLapOf_isSome {st : Store} {k : Int} {l : Lap} (hl : l ∈ st.laps)
    (hk : l.SessionKey = k) (hpos : 0 < l.LapDuration) : ∃ f, fastestLapOf st k = some f :=
  head_orderBy_isSome _ (List.ne_nil_of_mem (List.mem_filter.2 ⟨hl, by simp [hk, hpos]⟩))

theorem fastestLapOf_eq_none {st : Store} {k : Int}
    (h : ¬ ∃ l ∈ st.laps, l.SessionKey = k ∧ 0 < l.LapDuration) : fastestLapOf st k = none := by
  unfold fastestLapOf
  rw [head_orderBy_eq_none, List.filter_eq_nil_iff]
  intro l hl hlk
  simp only [Bool.and_eq_true, beq_iff_eq, decide_eq_true_eq] at hlk
  exact h ⟨l, hl, hlk.1, hlk.2⟩

theorem bestLapOf_some {st : Store} {k : Int} {d : Nat} {b : Lap}
    (h : bestLapOf st k d = some b) :
    b ∈ st.laps ∧ b.SessionKey = k ∧ b.DriverNumber = d ∧ 0 < b.LapDuration := by
  obtain ⟨hmem, -⟩ := head_lexAsc h
  obtain ⟨hb, hbk⟩ := List.mem_filter.1 hmem
  simp only [Bool.and_eq_true, beq_iff_eq, decide_eq_true_eq] at hbk
  exact ⟨hb, hbk.1.1, hbk.1.2, hbk.2⟩

theorem bestLapOf_none {st : Store} {k : Int} {d : Nat} (h : bestLapOf st k d = none) :
    ¬ ∃ l ∈ st.laps, l.SessionKey = k ∧ l.DriverNumber = d ∧ 0 < l.LapDuration := by
  rintro ⟨l, hl, hk, hd, hpos⟩
  unfold bestLapOf at h
  rw [head_orderBy_eq_none, List.filter_eq_nil_iff] at h
  exact h l hl (by simp [hk, hd, hpos])

/-- The flag of one result entry. -/
theorem raceResult_fastest_lap (st : Store) (driver : Driver) (e : Int × Session)
    (fp : Position) :
    (raceResult st driver e fp).fastest_lap = true ↔
      (∃ l ∈ st.laps, l.SessionKey = e.1 ∧ l.DriverNumber = driver.DriverNumber ∧
        0 < l.LapDuration) ∧
      ∃ f, fastestLapOf st e.1 = some f ∧ f.DriverNumber = driver.DriverNumber := by
  simp only [raceResult, bestLapOrZero, fastestLapOrZero, Bool.and_eq_true, beq_iff_eq,
    decide_eq_true_eq]
  cases hb : bestLapOf st e.1 driver.DriverNumber with
  | none =>
    have hno := bestLapOf_none hb
    constructor
    · rintro ⟨-, hpos⟩
      simp [zeroLap] at hpos
    · rintro ⟨hex, -⟩
      exact absurd hex hno
  | some b =>
    obtain ⟨hbm, hbk, hbd, hbpos⟩ := bestLapOf_some hb
    obtain ⟨f, hf⟩ := fastestLapOf_isSome hbm hbk hbpos
    simp only [Option.getD_some, hf, hbd]
    constructor
    · rintro ⟨hd, -⟩
      exact ⟨⟨b, hbm, hbk, hbd, hbpos⟩, f, rfl, hd.symm⟩
    · rintro ⟨-, f', hf', hd⟩
      cases hf'
      exact ⟨hd.symm, hbpos⟩

/-- C8. For a driver found by the lookup, `getDriverDetail` returns, and the
`fastest_lap` flag of each per-session entry is true exactly when the driver
has a positive-duration lap in that session and the lap selected as the
session's fastest (a minimum positive-duration lap of the session, over all
drivers) is owned by the driver. -/
theorem driverDetail_fastest_flag (st : Store) (id : String) (driver : Driver)
    (h : lookupDriver st id = .ok driver) :
    ∃ detail, getDriverDetail st id = .ok detail ∧
      (∀ r ∈ detail.race_results, ∃ k, r.session_key = .int k ∧
        (r.fastest_lap = true ↔
          (∃ l ∈ st.laps, l.SessionKey = k ∧ l.DriverNumber = driver.DriverNumber ∧
            0 < l.LapDuration) ∧
          ∃ f, fastestLapOf st k = some f ∧ f.DriverNumber = driver.DriverNumber)) ∧
      (∀ k f, fastestLapOf st k = some f → IsFastestLap st k f) := by
  obtain ⟨detail, hok, -, -, -, hp⟩ := getDriverDetail_ok h
  refine ⟨detail, hok, ?_, fun k f hf => fastestLapOf_fastest hf⟩
  intro r hr
  obtain ⟨e, -, fp, -, rfl⟩ := mem_detailLoop_results.1 (hp.mem_iff.1 hr)
  exact ⟨e.1, rfl, raceResult_fastest_lap st driver e fp⟩

/-- Concrete run for C8: driver 1 of the sample store, owner of the fastest
lap of session 9472. -/
theorem driverDetail_fastest_flag_witness :
    lookupDriver sampleStore "1" =
      .ok ⟨1, "Max", "Verstappen", "VER", "Red Bull Racing", "NED"⟩ ∧
    ∃ detail, getDriverDetail sampleStore "1" = .ok detail ∧
      (∀ r ∈ detail.race_results, ∃ k, r.session_key = .int k ∧
        (r.fastest_lap = true ↔
          (∃ l ∈ sampleStore.laps, l.SessionKey = k ∧ l.DriverNumber = 1 ∧
            0 < l.LapDuration) ∧
          ∃ f, fastestLapOf sampleStore k = some f ∧ f.DriverNumber = 1)) ∧
      (∀ k f, fastestLapOf sampleStore k = some f → IsFastestLap sampleStore k f) :=
  ⟨rfl, driverDetail_fastest_flag sampleStore "1" _ rfl⟩

/-! ### `getSessionDetail` -/

theorem sessionByKey_key {st : Store} {k : Int} {session : Session}
    (h : sessionByKey st k = some session) : session.SessionKey = k := by
  have := List.find?_some h
  simpa using this

/-- Shape of a successful `getSessionDetail`. -/
theorem getSessionDetail_ok {st : Store} {id : String} {k : Int} {session : Session}
    (hk : atoi id = some k) (hs : sessionByKey st k = some session) :
    ∃ detail, getSessionDetail st id = .ok detail ∧
      detail.results = sessionResults st (standingsOf st k) ∧
      detail.fastest_lap.total_time = ((fastestLapOf st k).getD zeroLap).LapDuration := by
  have hkey := sessionByKey_key hs
  refine ⟨_, by simp only [getSessionDetail, hk, hs]; rfl, ?_, ?_⟩
  · simp only [hkey]
  · simp only [hkey]

/-- C9. For a cached session, `getSessionDetail` returns; when the session has
a lap of positive duration, the reported fastest-lap duration is the duration
of such a lap, is positive and is at most the duration of every
positive-duration lap of the session; when it has none, the reported duration
is 0. -/
theorem sessionDetail_fastest_duration (st : Store) (id : String) (k : Int) (session : Session)
    (hk : atoi id = some k) (hs : sessionByKey st k = some session) :
    ∃ detail, getSessionDetail st id = .ok detail ∧
      ((∃ l ∈ st.laps, l.SessionKey = k ∧ 0 < l.LapDuration) →
        0 < detail.fastest_lap.total_time ∧
        (∃ f ∈ st.laps, f.SessionKey = k ∧ f.LapDuration = detail.fastest_lap.total_time) ∧
        ∀ l ∈ st.laps, l.SessionKey = k → 0 < l.LapDuration →
          detail.fastest_lap.total_time ≤ l.LapDuration) ∧
      ((¬ ∃ l ∈ st.laps, l.SessionKey = k ∧ 0 < l.LapDuration) →
        detail.fastest_lap.total_time = 0) := by
  obtain ⟨detail, hok, -, ht⟩ := getSessionDetail_ok hk hs
  refine ⟨detail, hok, ?_, ?_⟩
  · rintro ⟨l, hl, hlk, hpos⟩
    obtain ⟨f, hf⟩ := fastestLapOf_isSome hl hlk hpos
    obtain ⟨hfm, hfk, hfpos, hmin⟩ := fastestLapOf_fastest hf
    rw [ht, hf]
    exact ⟨hfpos, ⟨f, hfm, hfk, rfl⟩, hmin⟩
  · intro hno
    rw [ht, fastestLapOf_eq_none hno]
    rfl

/-- Concrete run for C9: session 9472 of the sample store, whose laps include a
zero-duration row. -/
theorem sessionDetail_fastest_duration_witness :
    atoi "9472" = some 9472 ∧
    sessionByKey sampleStore 9472 =
      some ⟨9472, "Race", "Race", "Sakhir", "Bahrain", 2024, "Sakhir", "2024-03-02T15:00:00"⟩ ∧
    ∃ detail, getSessionDetail sampleStore "9472" = .ok detail ∧
      ((∃ l ∈ sampleStore.laps, l.SessionKey = 9472 ∧ 0 < l.LapDuration) →
        0 < detail.fastest_lap.total_time ∧
        (∃ f ∈ sampleStore.laps, f.SessionKey = 9472 ∧
          f.LapDuration = detail.fastest_lap.total_time) ∧
        ∀ l ∈ sampleStore.laps, l.SessionKey = 9472 → 0 < l.LapDuration →
          detail.fastest_lap.total_time ≤ l.LapDuration) ∧
      ((¬ ∃ l ∈ sampleStore.laps, l.SessionKey = 9472 ∧ 0 < l.LapDuration) →
        detail.fastest_lap.total_time = 0) :=
  ⟨by decide, rfl, sessionDetail_fastest_duration sampleStore "9472" 9472 _ (by decide) rfl⟩

theorem standingsOf_perm (st : Store) (k : Int) :
    (standingsOf st k).Perm (st.positions.filter (fun p => p.SessionKey == k)) :=
  orderBy_perm _ _

theorem standingsOf_sorted (st : Store) (k : Int) :
    List.Sorted (fun a b : Position => a.Position ≤ b.Position) (standingsOf st k) := by
  have hs := orderBy_sorted (fun a b : Position => decide (a.Position ≤ b.Position))
    (fun a b => by simpa using le_total a.Position b.Position)
    (fun a b c hab hbc => by
      simp only [decide_eq_true_eq] at *
      exact hab.trans hbc)
    (st.positions.filter (fun p => p.SessionKey == k))
  exact List.Pairwise.imp (fun h => by simpa using h) hs

theorem driverByNumber_of_mem {st : Store} {n : Nat}
    (h : ∃ d ∈ st.drivers, d.DriverNumber = n) : ∃ d, driverByNumber st n = some d := by
  obtain ⟨d, hd, hn⟩ := h
  have : (driverByNumber st n).isSome = true := by
    unfold driverByNumber
    rw [List.find?_isSome]
    exact ⟨d, hd, by simp [hn]⟩
  exact Option.isSome_iff_exists.1 this

/-- The result list for standings `p1, p2, p3, …, pl` whose drivers are all
stored and whose last driver is none of the first three. -/
theorem sessionResults_four (st : Store) (p1 p2 p3 pl : Position) (mid : List Position)
    (d1 d2 d3 dl : Driver)
    (h1 : driverByNumber st p1.DriverNumber = some d1)
    (h2 : driverByNumber st p2.DriverNumber = some d2)
    (h3 : driverByNumber st p3.DriverNumber = some d3)
    (hl : driverByNumber st pl.DriverNumber = some dl)
    (hne : pl.DriverNumber ≠ p1.DriverNumber ∧ pl.DriverNumber ≠ p2.DriverNumber ∧
      pl.DriverNumber ≠ p3.DriverNumber) :
    sessionResults st (p1 :: p2 :: p3 :: (mid ++ [pl])) =
      [⟨toString p1.Position, fullName d1, d1.TeamName, d1.CountryCode⟩,
       ⟨toString p2.Position, fullName d2, d2.TeamName, d2.CountryCode⟩,
       ⟨toString p3.Position, fullName d3, d3.TeamName, d3.CountryCode⟩,
       ⟨ultimoLabel, fullName dl, dl.TeamName, dl.CountryCode⟩] := by
  have hlast : (p1 :: p2 :: p3 :: (mid ++ [pl])).getLast? = some pl := by
    have : p1 :: p2 :: p3 :: (mid ++ [pl]) = (p1 :: p2 :: p3 :: mid) ++ [pl] := by simp
    rw [this, List.getLast?_concat]
  obtain ⟨n1, n2, n3⟩ := hne
  unfold sessionResults
  simp only [hlast, Option.getD_some, List.take_succ_cons, List.take_zero, List.foldl_cons,
    List.foldl_nil, top3Step, h1, h2, h3, hl, List.nil_append, List.cons_append]
  simp [n1, n2, n3]

/-- C10. For a cached session whose Position rows are one row per driver for
at least four distinct drivers, all stored in the driver table,
`getSessionDetail` returns exactly four result entries: the three rows that
come first in ascending order of position, followed by the row that comes
last, labelled as the last-place entry. -/
theorem sessionDetail_four_entries (st : Store) (id : String) (k : Int) (session : Session)
    (hk : atoi id = some k) (hs : sessionByKey st k = some session)
    (hn : 4 ≤ (st.positions.filter (fun p => p.SessionKey == k)).length)
    (hnd : ((st.positions.filter (fun p => p.SessionKey == k)).map
      (fun p => p.DriverNumber)).Nodup)
    (hdrv : ∀ p ∈ st.positions, p.SessionKey = k →
      ∃ d ∈ st.drivers, d.DriverNumber = p.DriverNumber) :
    ∃ (detail : SessionDetail) (p1 p2 p3 pl : Position) (mid : List Position)
      (d1 d2 d3 dl : Driver),
      getSessionDetail st id = .ok detail ∧
      (p1 :: p2 :: p3 :: (mid ++ [pl])).Perm (st.positions.filter (fun p => p.SessionKey == k)) ∧
      List.Sorted (fun a b : Position => a.Position ≤ b.Position)
        (p1 :: p2 :: p3 :: (mid ++ [pl])) ∧
      driverByNumber st p1.DriverNumber = some d1 ∧
      driverByNumber st p2.DriverNumber = some d2 ∧
      driverByNumber st p3.DriverNumber = some d3 ∧
      driverByNumber st pl.DriverNumber = some dl ∧
      detail.results =
        [⟨toString p1.Position, fullName d1, d1.TeamName, d1.CountryCode⟩,
         ⟨toString p2.Position, fullName d2, d2.TeamName, d2.CountryCode⟩,
         ⟨toString p3.Position, fullName d3, d3.TeamName, d3.CountryCode⟩,
         ⟨ultimoLabel, fullName dl, dl.TeamName, dl.CountryCode⟩] := by
  obtain ⟨detail, hok, hres, -⟩ := getSessionDetail_ok hk hs
  have hperm := standingsOf_perm st k
  have hsorted := standingsOf_sorted st k
  have hlen : 4 ≤ (standingsOf st k).length := by rw [hperm.length_eq]; exact hn
  have hnd' : ((standingsOf st k).map (fun p => p.DriverNumber)).Nodup :=
    ((hperm.map _).nodup_iff).2 hnd
  have hlook : ∀ p ∈ standingsOf st k, ∃ d, driverByNumber st p.DriverNumber = some d := by
    intro p hp
    obtain ⟨hp', hpk⟩ := List.mem_filter.1 (hperm.mem_iff.1 hp)
    exact driverByNumber_of_mem (hdrv p hp' (by simpa using hpk))
  match hS : standingsOf st k, hlen with
  | p1 :: p2 :: p3 :: t, hlen' =>
    rw [hS] at hperm hsorted hnd' hlook hres
    rcases List.eq_nil_or_concat t with rfl | ⟨mid, pl, ht⟩
    · simp at hlen'
    · rw [List.concat_eq_append] at ht
      subst ht
      obtain ⟨d1, h1⟩ := hlook p1 (by simp)
      obtain ⟨d2, h2⟩ := hlook p2 (by simp)
      obtain ⟨d3, h3⟩ := hlook p3 (by simp)
      obtain ⟨dl, hl⟩ := hlook pl (by simp)
      have hne : pl.DriverNumber ≠ p1.DriverNumber ∧ pl.DriverNumber ≠ p2.DriverNumber ∧
          pl.DriverNumber ≠ p3.DriverNumber := by
        simp only [List.map_cons, List.map_append, List.map_nil, List.nodup_cons, List.mem_cons,
          List.mem_append, List.mem_singleton, not_or] at hnd'
        obtain ⟨⟨-, -, -, a1⟩, ⟨-, -, a2⟩, ⟨-, a3⟩, -⟩ := hnd'
        exact ⟨fun h => a1.1 h.symm, fun h => a2.1 h.symm, fun h => a3.1 h.symm⟩
      exact ⟨detail, p1, p2, p3, pl, mid, d1, d2, d3, dl, hok, hperm, hsorted, h1, h2, h3, hl,
        hres.trans (sessionResults_four st p1 p2 p3 pl mid d1 d2 d3 dl h1 h2 h3 hl hne)⟩

/-- Concrete run for C10: positions 1, 2, 3, 4 held by drivers 1, 2, 3, 4 give
the entries of drivers 1, 2, 3 and then driver 4 as last. -/
theorem sessionDetail_four_entries_witness :
    (atoi "9472" = some 9472 ∧
      4 ≤ (fourDriverStore.positions.filter (fun p => p.SessionKey == 9472)).length ∧
      ((fourDriverStore.positions.filter (fun p => p.SessionKey == 9472)).map
        (fun p => p.DriverNumber)).Nodup) ∧
    (∃ (detail : SessionDetail) (p1 p2 p3 pl : Position) (mid : List Position)
      (d1 d2 d3 dl : Driver),
      getSessionDetail fourDriverStore "9472" = .ok detail ∧
      (p1 :: p2 :: p3 :: (mid ++ [pl])).Perm
        (fourDriverStore.positions.filter (fun p => p.SessionKey == 9472)) ∧
      List.Sorted (fun a b : Position => a.Position ≤ b.Position)
        (p1 :: p2 :: p3 :: (mid ++ [pl])) ∧
      driverByNumber fourDriverStore p1.DriverNumber = some d1 ∧
      driverByNumber fourDriverStore p2.DriverNumber = some d2 ∧
      driverByNumber fourDriverStore p3.DriverNumber = some d3 ∧
      driverByNumber fourDriverStore pl.DriverNumber = some dl ∧
      detail.results =
        [⟨toString p1.Position, fullName d1, d1.TeamName, d1.CountryCode⟩,
         ⟨toString p2.Position, fullName d2, d2.TeamName, d2.CountryCode⟩,
         ⟨toString p3.Position, fullName d3, d3.TeamName, d3.CountryCode⟩,
         ⟨ultimoLabel, fullName dl, dl.TeamName, dl.CountryCode⟩]) ∧
    (getSessionDetail fourDriverStore "9472").map (fun d => d.results) =
      .ok [⟨"1", "Max Verstappen", "Red Bull Racing", "NED"⟩,
           ⟨"2", "Logan Sargeant", "Williams", "USA"⟩,
           ⟨"3", "Daniel Ricciardo", "RB", "AUS"⟩,
           ⟨"Último", "Lando Norris", "McLaren", "GBR"⟩] :=
  ⟨⟨by decide, by decide, by decide⟩,
    sessionDetail_four_entries fourDriverStore "9472" 9472
      ⟨9472, "Race", "Race", "Sakhir", "Bahrain", 2024, "Sakhir", "2024-03-02T15:00:00"⟩
      (by decide) rfl (by decide) (by decide) (by decide),
    rfl⟩

/-! ### The result list of `getSessionDetail` -/

theorem foldl_top3Step_length (st : Store) (l : List Position) :
    ∀ acc : List ResultEntry × List Nat,
      (l.foldl (top3Step st) acc).1.length ≤ acc.1.length + l.length := by
  induction l with
  | nil => intro acc; simp
  | cons p l ih =>
    intro acc
    have h := ih (top3Step st acc p)
    have hstep : (top3Step st acc p).1.length ≤ acc.1.length + 1 := by
      unfold top3Step
      cases driverByNumber st p.DriverNumber <;> simp
    simp only [List.foldl_cons, List.length_cons]
    omega

/-- The result list never has more than four entries. -/
theorem sessionResults_length_le (st : Store) (positions : List Position) :
    (sessionResults st positions).length ≤ 4 := by
  have h := foldl_top3Step_length st (positions.take 3) ([], [])
  have h3 : (positions.take 3).length ≤ 3 := by
    rw [List.length_take]
    exact Nat.min_le_left _ _
  simp only [List.length_nil] at h
  unfold sessionResults
  simp only
  split
  · omega
  · split
    · omega
    · rw [List.length_append, List.length_singleton]
      omega

/-- C11 (code behaviour at the failing input). Session 9472 of the sample
store holds two Position rows per driver; the top-3 loop takes the first three
rows of the position-ordered standings without looking at the drivers already
shown, so the result list names Max Verstappen twice. -/
theorem sessionDetail_lists_driver_twice :
    standingsOf sampleStore 9472 =
      [⟨44, 9472, 1, "2024-03-02T15:00:00"⟩, ⟨1, 9472, 1, "2024-03-02T15:20:00"⟩,
       ⟨1, 9472, 2, "2024-03-02T15:00:00"⟩, ⟨44, 9472, 2, "2024-03-02T15:20:00"⟩] ∧
    (getSessionDetail sampleStore "9472").map (fun d => d.results) =
      .ok [⟨"1", "Lewis Hamilton", "Mercedes", "GBR"⟩,
           ⟨"1", "Max Verstappen", "Red Bull Racing", "NED"⟩,
           ⟨"2", "Max Verstappen", "Red Bull Racing", "NED"⟩] :=
  ⟨by decide, rfl⟩

/-! ### The leaderboards of `getSeasonSummary` -/

theorem format_length (st : Store) (cs : List Count) : (format st cs).length = cs.length := by
  simp [format]

theorem format_pairwise (st : Store) {cs : List Count}
    (h : cs.Pairwise (fun a b => b.Count ≤ a.Count)) :
    (format st cs).Pairwise (fun a b => b.count ≤ a.count) := by
  unfold format
  rw [List.pairwise_map]
  have h2 : (cs.enum.map Prod.snd).Pairwise (fun a b => b.Count ≤ a.Count) := by
    rw [List.enum_map_snd]
    exact h
  rw [List.pairwise_map] at h2
  exact h2

theorem format_position (st : Store) (cs : List Count) (i : Nat)
    (h : i < (format st cs).length) : ((format st cs).get ⟨i, h⟩).position = i + 1 := by
  simp [format]

theorem top3ByCount_length (rows : List Count) : (top3ByCount rows).length ≤ 3 := by
  unfold top3ByCount
  rw [List.length_take]
  exact Nat.min_le_left _ _

theorem top3ByCount_pairwise (rows : List Count) :
    (top3ByCount rows).Pairwise (fun a b => b.Count ≤ a.Count) := by
  have hs := orderBy_sorted (fun a b : Count => decide (b.Count ≤ a.Count))
    (fun a b => by simpa using le_total b.Count a.Count)
    (fun a b c hab hbc => by
      simp only [decide_eq_true_eq] at *
      exact hbc.trans hab)
    rows
  have hp : (orderBy (fun a b : Count => decide (b.Count ≤ a.Count)) rows).Pairwise
      (fun a b => b.Count ≤ a.Count) := List.Pairwise.imp (fun h => by simpa using h) hs
  exact hp.sublist (List.take_sublist _ _)

theorem format_top3_isLeaderboard (st : Store) (rows : List Count) :
    IsLeaderboard (format st (top3ByCount rows)) :=
  ⟨by rw [format_length]; exact top3ByCount_length rows,
    format_pairwise st (top3ByCount_pairwise rows),
    fun i h => format_position st _ i h⟩

/-- C12. Each of the three leaderboards of the season summary has at most
three entries, counts that do not increase from one entry to the next, and
rank labels 1, 2, 3 in that order. -/
theorem seasonSummary_leaderboards (st : Store) :
    IsLeaderboard (getSeasonSummary st).top_3_winners ∧
    IsLeaderboard (getSeasonSummary st).top_3_fastest_laps ∧
    IsLeaderboard (getSeasonSummary st).top_3_pole_positions :=
  ⟨format_top3_isLeaderboard st _, format_top3_isLeaderboard st _,
    format_top3_isLeaderboard st _⟩

/-! ### A driver without laps -/

theorem bestLapOrZero_of_no_laps {st : Store} {d : Nat}
    (h : ∀ l ∈ st.laps, l.DriverNumber ≠ d) (k : Int) : bestLapOrZero st k d = zeroLap := by
  unfold bestLapOrZero
  cases hb : bestLapOf st k d with
  | none => rfl
  | some b =>
    obtain ⟨hm, -, hd, -⟩ := bestLapOf_some hb
    exact absurd hd (h b hm)

theorem foldl_detailStep_maxSpeed {st : Store} {driver : Driver}
    (h : ∀ l ∈ st.laps, l.DriverNumber ≠ driver.DriverNumber) (es : List (Int × Session)) :
    ∀ acc : DetailAcc, acc.maxSpeed = 0 → (es.foldl (detailStep st driver) acc).maxSpeed = 0 := by
  induction es with
  | nil => intro acc hacc; exact hacc
  | cons e es ih =>
    intro acc hacc
    rw [List.foldl_cons]
    apply ih
    unfold detailStep
    cases finalPositionOf st e.1 driver.DriverNumber with
    | none => exact hacc
    | some fp => simp [bestLapOrZero_of_no_laps h, zeroLap, hacc]

theorem getDriverDetail_maxSpeed {st : Store} {id : String} {driver : Driver}
    {detail : DriverDetail} (h : lookupDriver st id = .ok driver)
    (hok : getDriverDetail st id = .ok detail) :
    detail.performance_summary.max_speed = (detailLoop st driver).maxSpeed := by
  unfold getDriverDetail at hok
  simp only [h] at hok
  cases hs : sortSlice (sessionDateBefore (sessionsByKey st.sessions))
      (detailLoop st driver).results with
  | error e => simp [hs] at hok
  | ok r =>
    simp only [hs, Except.ok.injEq] at hok
    rw [← hok]

/-- C13. For a driver found by the lookup who has a Position row in a cached
session and no Lap row at all, `getDriverDetail` returns a career max speed of
0 and a non-empty result list in which every entry has `fastest_lap` false,
best lap duration 0 and max speed 0, whatever the laps of the other drivers. -/
theorem driverDetail_no_laps (st : Store) (id : String) (driver : Driver)
    (h : lookupDriver st id = .ok driver)
    (hpos : ∃ k ∈ cachedSessionKeys st, hasPositionRow st driver.DriverNumber k = true)
    (hlaps : ∀ l ∈ st.laps, l.DriverNumber ≠ driver.DriverNumber) :
    ∃ detail, getDriverDetail st id = .ok detail ∧
      detail.performance_summary.max_speed = 0 ∧
      detail.race_results ≠ [] ∧
      ∀ r ∈ detail.race_results,
        r.fastest_lap = false ∧ r.best_lap_duration = 0 ∧ r.max_speed = 0 := by
  obtain ⟨detail, hok, -, -, -, hp⟩ := getDriverDetail_ok h
  refine ⟨detail, hok, ?_, ?_, ?_⟩
  · rw [getDriverDetail_maxSpeed h hok]
    exact foldl_detailStep_maxSpeed hlaps _ _ rfl
  · obtain ⟨k, hk, hrow⟩ := hpos
    obtain ⟨e, he, rfl⟩ := List.mem_map.1 ((sessionsByKey_keys_perm st).mem_iff.2 hk)
    have hsome : (finalPositionOf st e.1 driver.DriverNumber).isSome = true := by
      rw [finalPositionOf_isSome_iff]
      exact hrow
    obtain ⟨fp, hfp⟩ := Option.isSome_iff_exists.1 hsome
    have hmem : raceResult st driver e fp ∈ detail.race_results :=
      hp.mem_iff.2 (mem_detailLoop_results.2 ⟨e, he, fp, hfp, rfl⟩)
    exact List.ne_nil_of_mem hmem
  · intro r hr
    obtain ⟨e, -, fp, -, rfl⟩ := mem_detailLoop_results.1 (hp.mem_iff.1 hr)
    simp [raceResult, bestLapOrZero_of_no_laps hlaps, zeroLap]

/-- Concrete run for C13: driver 16 is classified in session 9472 and has no
Lap row, while drivers 1 and 44 have laps. -/
theorem driverDetail_no_laps_witness :
    lookupDriver noLapStore "16" = .ok ⟨16, "Charles", "Leclerc", "LEC", "Ferrari", "MON"⟩ ∧
    (∃ k ∈ cachedSessionKeys noLapStore, hasPositionRow noLapStore 16 k = true) ∧
    (∀ l ∈ noLapStore.laps, l.DriverNumber ≠ 16) ∧
    ∃ detail, getDriverDetail noLapStore "16" = .ok detail ∧
      detail.performance_summary.max_speed = 0 ∧
      detail.race_results ≠ [] ∧
      ∀ r ∈ detail.race_results,
        r.fastest_lap = false ∧ r.best_lap_duration = 0 ∧ r.max_speed = 0 :=
  ⟨rfl, ⟨9472, by decide, by decide⟩, by decide,
    driverDetail_no_laps noLapStore "16" ⟨16, "Charles", "Leclerc", "LEC", "Ferrari", "MON"⟩ rfl
      ⟨9472, by decide, by decide⟩ (by decide)⟩

/-! ### The cause carried by a failed fetch -/

/-- C15 (code behaviour at the failing input). When every attempt is answered
with status 500, `fetchWithRetry` fails after 3 calls with the error built
after the loop, whose cause is the `err` of the last `http.Get`: that call
returned a response, so the cause is absent.  A last attempt that ends in a
transport error does carry its cause. -/
theorem fetchWithRetry_status_cause_absent :
    (fetchWithRetry sampleJson netAlways500 3).result = .error (.exhausted 3 none) ∧
    (fetchWithRetry sampleJson netAlways500 3).calls = 3 ∧
    (fetchWithRetry sampleJson netThreeFailures 3).result =
      .error (.exhausted 3 (some "connection reset")) :=
  ⟨rfl, rfl, rfl⟩

/-! ### The driver lookup -/

theorem driverListing_perm (st : Store) : (driverListing st).Perm st.drivers :=
  orderBy_perm _ st.drivers

theorem driverListing_length (st : Store) : (driverListing st).length = st.drivers.length :=
  (driverListing_perm st).length_eq

theorem driverListing_sorted (st : Store) :
    (driverListing st).Pairwise (fun a b => a.DriverNumber ≤ b.DriverNumber) := by
  have h := orderBy_sorted (fun a b : Driver => decide (a.DriverNumber ≤ b.DriverNumber))
    (fun a b => by
      rcases Nat.le_total a.DriverNumber b.DriverNumber with h | h
      · exact Or.inl (decide_eq_true h)
      · exact Or.inr (decide_eq_true h))
    (fun a b c hab hbc => decide_eq_true
      (Nat.le_trans (of_decide_eq_true hab) (of_decide_eq_true hbc)))
    st.drivers
  exact List.Pairwise.imp (fun hab => of_decide_eq_true hab) h

theorem driverByText_isSome_iff (st : Store) (id : String) :
    (∃ d, driverByText st id = some d) ↔
      ∃ d ∈ st.drivers, st.textEq id d.DriverNumber = true := by
  unfold driverByText
  constructor
  · rintro ⟨d, hd⟩
    exact ⟨d, (driverListing_perm st).mem_iff.1 (List.mem_of_find?_eq_some hd),
      by simpa using List.find?_some hd⟩
  · rintro ⟨d, hd, hn⟩
    have : ((driverListing st).find? (fun d => st.textEq id d.DriverNumber)).isSome = true := by
      rw [List.find?_isSome]
      exact ⟨d, (driverListing_perm st).mem_iff.2 hd, hn⟩
    exact Option.isSome_iff_exists.1 this

/-- C16. The driver lookup of `getDriverDetail`.  The number of a driver equals
the input when the store's comparison `driver_number = ?` says so for the
request text (`textEq`, whatever the engine makes of the text).  When a stored
driver's number equals the input, such a driver is selected, whether or not the
input is also a valid index; otherwise an input that `strconv.Atoi` reads as an
integer `i` with `1 ≤ i ≤ number of drivers` selects the `i`-th driver of the
full listing; otherwise the outcome is not-found, and the handler answers
not-found without computing anything.  The full listing holds the stored
drivers by ascending driver number. -/
theorem lookupDriver_cases (st : Store) (id : String) :
    ((driverListing st).Perm st.drivers ∧
      (driverListing st).Pairwise (fun a b => a.DriverNumber ≤ b.DriverNumber)) ∧
    ((∃ d ∈ st.drivers, st.textEq id d.DriverNumber = true) →
      ∃ d ∈ st.drivers, st.textEq id d.DriverNumber = true ∧ lookupDriver st id = .ok d) ∧
    ((¬ ∃ d ∈ st.drivers, st.textEq id d.DriverNumber = true) →
      (∀ i : Int, atoi id = some i → 1 ≤ i → i ≤ (st.drivers.length : Int) →
        ∃ d, (driverListing st).get? (i - 1).toNat = some d ∧ lookupDriver st id = .ok d) ∧
      ((atoi id = none ∨ ∃ i : Int, atoi id = some i ∧ (i < 1 ∨ (st.drivers.length : Int) < i)) →
        lookupDriver st id = .error .notFound ∧ getDriverDetail st id = .error .notFound)) := by
  refine ⟨⟨driverListing_perm st, driverListing_sorted st⟩, ?_, ?_⟩
  · intro hex
    obtain ⟨d, hd⟩ := (driverByText_isSome_iff st id).2 hex
    have hf : (driverListing st).find? (fun d => st.textEq id d.DriverNumber) = some d := hd
    refine ⟨d, ?_, ?_, ?_⟩
    · exact (driverListing_perm st).mem_iff.1 (List.mem_of_find?_eq_some hf)
    · simpa using List.find?_some hf
    · simp [lookupDriver, hd]
  · intro hno
    have hnone : driverByText st id = none := by
      cases hd : driverByText st id with
      | none => rfl
      | some d => exact absurd ((driverByText_isSome_iff st id).1 ⟨d, hd⟩) hno
    have hlen := driverListing_length st
    constructor
    · intro i hi h1 h2
      have hlt : (i - 1).toNat < (driverListing st).length := by omega
      refine ⟨(driverListing st).get ⟨(i - 1).toNat, hlt⟩, List.get?_eq_get hlt, ?_⟩
      have hcond : ¬ (i < 1 ∨ i > ((driverListing st).length : Int)) := by omega
      simp only [lookupDriver, hnone, hi, hcond, if_false]
      rw [List.getD_eq_getElem _ _ hlt]
      rfl
    · intro hbad
      have hl : lookupDriver st id = .error .notFound := by
        rcases hbad with hi | ⟨i, hi, hr⟩
        · simp [lookupDriver, hnone, hi]
        · have hcond : i < 1 ∨ i > ((driverListing st).length : Int) := by omega
          simp [lookupDriver, hnone, hi, hcond]
      exact ⟨hl, by simp [getDriverDetail, hl]⟩

/-- Concrete runs for C16.  On the sample store, whose drivers are numbers 1 and
44: `1` selects driver 1 by number although 1 is a valid index; `+44` and
`44.0`, which the engine reads as the number 44, select driver 44 by number;
`2` selects the second driver of the listing (number 44) by index; `3` and
`abc` are not found.  On the store with drivers inserted in the order 1, 44,
16 the listing is 1, 16, 44, and `2` selects driver 16. -/
theorem lookupDriver_cases_witness :
    (∃ d ∈ sampleStore.drivers, sampleStore.textEq "1" d.DriverNumber = true ∧
      lookupDriver sampleStore "1" = .ok d) ∧
    ((∃ d ∈ sampleStore.drivers, sampleStore.textEq "+44" d.DriverNumber = true ∧
      lookupDriver sampleStore "+44" = .ok d) ∧
      lookupDriver sampleStore "+44" = .ok ⟨44, "Lewis", "Hamilton", "HAM", "Mercedes", "GBR"⟩) ∧
    ((∃ d ∈ sampleStore.drivers, sampleStore.textEq "44.0" d.DriverNumber = true ∧
      lookupDriver sampleStore "44.0" = .ok d) ∧
      lookupDriver sampleStore "44.0" = .ok ⟨44, "Lewis", "Hamilton", "HAM", "Mercedes", "GBR"⟩) ∧
    ((∃ d, (driverListing sampleStore).get? ((2 : Int) - 1).toNat = some d ∧
      lookupDriver sampleStore "2" = .ok d) ∧
      lookupDriver sampleStore "2" = .ok ⟨44, "Lewis", "Hamilton", "HAM", "Mercedes", "GBR"⟩) ∧
    (lookupDriver sampleStore "3" = .error .notFound ∧
      getDriverDetail sampleStore "3" = .error .notFound) ∧
    (lookupDriver sampleStore "abc" = .error .notFound ∧
      getDriverDetail sampleStore "abc" = .error .notFound) ∧
    (noLapStore.drivers.map (fun d => d.DriverNumber) = [1, 44, 16] ∧
      (driverListing noLapStore).map (fun d => d.DriverNumber) = [1, 16, 44] ∧
      (∃ d, (driverListing noLapStore).get? ((2 : Int) - 1).toNat = some d ∧
        lookupDriver noLapStore "2" = .ok d) ∧
      lookupDriver noLapStore "2" = .ok ⟨16, "Charles", "Leclerc", "LEC", "Ferrari", "MON"⟩) :=
  ⟨(lookupDriver_cases sampleStore "1").2.1
      ⟨⟨1, "Max", "Verstappen", "VER", "Red Bull Racing", "NED"⟩, by decide, by decide⟩,
    ⟨(lookupDriver_cases sampleStore "+44").2.1
      ⟨⟨44, "Lewis", "Hamilton", "HAM", "Mercedes", "GBR"⟩, by decide, by decide⟩, rfl⟩,
    ⟨(lookupDriver_cases sampleStore "44.0").2.1
      ⟨⟨44, "Lewis", "Hamilton", "HAM", "Mercedes", "GBR"⟩, by decide, by decide⟩, rfl⟩,
    ⟨((lookupDriver_cases sampleStore "2").2.2 (by decide)).1 2 (by decide) (by decide)
      (by decide), rfl⟩,
    ((lookupDriver_cases sampleStore "3").2.2 (by decide)).2
      (Or.inr ⟨3, by decide, Or.inr (by decide)⟩),
    ((lookupDriver_cases sampleStore "abc").2.2 (by decide)).2 (Or.inl (by decide)),
    ⟨rfl, rfl, ((lookupDriver_cases noLapStore "2").2.2 (by decide)).1 2 (by decide) (by decide)
      (by decide), rfl⟩⟩

/-! ### Population: skipping populated tables -/

set_option maxRecDepth 20000

/-- C14. On a store whose Driver, Session, Position and Lap tables each hold
at least one row, the three population steps run to the end without any call
to `fetchWithRetry`, without any `http.Get`, without any insert, and leave the
store as it was. -/
theorem populate_idempotent (env : Env) (st : Store)
    (hd : 0 < st.drivers.length) (hs : 0 < st.sessions.length)
    (hp : 0 < st.positions.length) (hl : 0 < st.laps.length) :
    ∃ s, populate env st = .ok s ∧ s.store = st ∧ s.fetched = [] ∧ s.gets = 0 ∧
      s.inserts = [] := by
  refine ⟨⟨st, [], 0, []⟩, ?_, rfl, rfl, rfl, rfl⟩
  simp [populate, autoPopulateDriversIfNeeded, autoPopulateSessionsIfNeeded,
    autoPopulatePositionsAndLapsIfNeeded, hd, hs, hp, hl]

/-- Concrete run for C14: the sample store, with a provider that would answer
every URL. -/
theorem populate_idempotent_witness :
    (0 < sampleStore.drivers.length ∧ 0 < sampleStore.sessions.length ∧
      0 < sampleStore.positions.length ∧ 0 < sampleStore.laps.length) ∧
    ∃ s, populate demoEnv sampleStore = .ok s ∧ s.store = sampleStore ∧ s.fetched = [] ∧
      s.gets = 0 ∧ s.inserts = [] :=
  ⟨⟨by decide, by decide, by decide, by decide⟩,
    populate_idempotent demoEnv sampleStore (by decide) (by decide) (by decide) (by decide)⟩

/-! ### Population: sessions -/

/-- C17 (counterexample). The sessions fetch succeeds and its payload decodes
to one session, yet the run is aborted with no row inserted, because the store
rejects the batch insert: the three causes named by the claim do not exhaust
the aborting runs. -/
theorem autoPopulateSessions_insert_rejected_aborts :
    (fetchUrl rejectingEnv .sessions).result = .ok sessionsDoc ∧
    (rejectingEnv.rows.sessions sessionsDoc).toOption.map List.length = some 1 ∧
    (match autoPopulateSessionsIfNeeded rejectingEnv ⟨emptyStore, [], 0, []⟩ with
      | .error a => a.reason = .insertFailed ∧ a.state.store.sessions = []
      | .ok _ => False) :=
  ⟨rfl, rfl, rfl, rfl⟩

/-- C17 (amended). On an empty Session table the sessions step aborts startup,
with the store unchanged, when the fetch fails, when the payload does not
decode as a session list, when the decoded list is empty, or when the store
rejects the insert; otherwise it returns with the Session table holding exactly
the decoded sessions (at least one row) and the other tables unchanged. -/
theorem autoPopulateSessions_on_empty (env : Env) (s : PopState)
    (hs : s.store.sessions = []) :
    (∀ e, (fetchUrl env .sessions).result = .error e →
      ∃ a, autoPopulateSessionsIfNeeded env s = .error a ∧ a.reason = .fetchFailed e ∧
        a.state.store = s.store) ∧
    (∀ body, (fetchUrl env .sessions).result = .ok body →
      (∀ e, env.rows.sessions body = .error e →
        ∃ a, autoPopulateSessionsIfNeeded env s = .error a ∧ a.reason = .parseFailed e ∧
          a.state.store = s.store) ∧
      (env.rows.sessions body = .ok [] →
        ∃ a, autoPopulateSessionsIfNeeded env s = .error a ∧ a.reason = .noSessions ∧
          a.state.store = s.store) ∧
      (∀ rows, env.rows.sessions body = .ok rows → rows ≠ [] →
        (env.insertOk .sessions 0 = false →
          ∃ a, autoPopulateSessionsIfNeeded env s = .error a ∧ a.reason = .insertFailed ∧
            a.state.store = s.store) ∧
        (env.insertOk .sessions 0 = true →
          ∃ s', autoPopulateSessionsIfNeeded env s = .ok s' ∧ s'.store.sessions = rows ∧
            1 ≤ s'.store.sessions.length ∧ s'.store.drivers = s.store.drivers ∧
            s'.store.positions = s.store.positions ∧ s'.store.laps = s.store.laps))) := by
  have h0 : ¬ s.store.sessions.length > 0 := by simp [hs]
  refine ⟨fun e he => ?_, fun body hb => ⟨fun e he => ?_, fun he => ?_, fun rows hr hne => ?_⟩⟩
  · exact ⟨⟨.fetchFailed e, s.afterFetch .sessions (fetchUrl env .sessions)⟩,
      by simp only [autoPopulateSessionsIfNeeded, h0, if_false, he], rfl, rfl⟩
  · exact ⟨⟨.parseFailed e, s.afterFetch .sessions (fetchUrl env .sessions)⟩,
      by simp only [autoPopulateSessionsIfNeeded, h0, if_false, hb, he], rfl, rfl⟩
  · exact ⟨⟨.noSessions, s.afterFetch .sessions (fetchUrl env .sessions)⟩,
      by simp [autoPopulateSessionsIfNeeded, h0, hb, he], rfl, rfl⟩
  · have hlen : ¬ rows.length = 0 := fun h => hne (List.length_eq_zero.1 h)
    have hpos : 1 ≤ rows.length := Nat.pos_of_ne_zero hlen
    constructor
    · intro hok
      exact ⟨⟨.insertFailed,
          { s.afterFetch .sessions (fetchUrl env .sessions) with
            inserts := (s.afterFetch .sessions (fetchUrl env .sessions)).inserts ++
              [(Table.sessions, 0, rows.length)] }⟩,
        by simp only [autoPopulateSessionsIfNeeded, h0, if_false, hb, hr, hlen, hok,
          Bool.false_eq_true], rfl, rfl⟩
    · intro hok
      refine ⟨⟨{ s.store with sessions := s.store.sessions ++ rows },
          s.fetched ++ [.sessions], s.gets + (fetchUrl env .sessions).calls,
          s.inserts ++ [(Table.sessions, 0, rows.length)]⟩, ?_, ?_, ?_, rfl, rfl, rfl⟩
      · simp only [autoPopulateSessionsIfNeeded, h0, if_false, hb, hr, hlen, hok, if_true]
        rfl
      · simp [hs]
      · simpa [hs] using hpos

/-- Concrete run for the amended C17: on the empty store, with a provider
answering the sessions URL with one race and a store accepting the insert, the
step returns with that race in the Session table. -/
theorem autoPopulateSessions_on_empty_witness :
    (⟨emptyStore, [], 0, []⟩ : PopState).store.sessions = [] ∧
    ∃ s', autoPopulateSessionsIfNeeded demoEnv ⟨emptyStore, [], 0, []⟩ = .ok s' ∧
      s'.store.sessions =
        [⟨9472, "Race", "Race", "Sakhir", "Bahrain", 2024, "Sakhir", "2024-03-02T15:00:00"⟩] ∧
      1 ≤ s'.store.sessions.length ∧ s'.store.drivers = emptyStore.drivers ∧
      s'.store.positions = emptyStore.positions ∧ s'.store.laps = emptyStore.laps :=
  ⟨rfl, (((autoPopulateSessions_on_empty demoEnv ⟨emptyStore, [], 0, []⟩ rfl).2
    sessionsDoc rfl).2.2 _ rfl (by decide)).2 rfl⟩

/-! ### Population: the session key of fetched rows -/

/-- C18. For every queried session key `k`: when the fetch yields a payload
that decodes to a list of rows, `fetchPositionsFromAPI` (and likewise
`fetchLapsFromAPI`) returns a list of the same length in which the row at each
index has session key `k` and every other field equal to that of the decoded
row at the same index. -/
theorem fetchRows_overwrite_session_key (env : Env) (k : Int) :
    (∀ body rows, (fetchUrl env (.position k)).result = .ok body →
      env.rows.positions body = .ok rows →
      ∃ out, fetchPositionsFromAPI env k = .ok out ∧ out.length = rows.length ∧
        ∀ (i : Nat) (h1 : i < out.length) (h2 : i < rows.length),
          (out.get ⟨i, h1⟩).SessionKey = k ∧
          (out.get ⟨i, h1⟩).DriverNumber = (rows.get ⟨i, h2⟩).DriverNumber ∧
          (out.get ⟨i, h1⟩).Position = (rows.get ⟨i, h2⟩).Position ∧
          (out.get ⟨i, h1⟩).Date = (rows.get ⟨i, h2⟩).Date) ∧
    (∀ body rows, (fetchUrl env (.laps k)).result = .ok body →
      env.rows.laps body = .ok rows →
      ∃ out, fetchLapsFromAPI env k = .ok out ∧ out.length = rows.length ∧
        ∀ (i : Nat) (h1 : i < out.length) (h2 : i < rows.length),
          (out.get ⟨i, h1⟩).SessionKey = k ∧
          (out.get ⟨i, h1⟩).DriverNumber = (rows.get ⟨i, h2⟩).DriverNumber ∧
          (out.get ⟨i, h1⟩).LapNumber = (rows.get ⟨i, h2⟩).LapNumber ∧
          (out.get ⟨i, h1⟩).LapDuration = (rows.get ⟨i, h2⟩).LapDuration ∧
          (out.get ⟨i, h1⟩).DurationSector1 = (rows.get ⟨i, h2⟩).DurationSector1 ∧
          (out.get ⟨i, h1⟩).DurationSector2 = (rows.get ⟨i, h2⟩).DurationSector2 ∧
          (out.get ⟨i, h1⟩).DurationSector3 = (rows.get ⟨i, h2⟩).DurationSector3 ∧
          (out.get ⟨i, h1⟩).StSpeed = (rows.get ⟨i, h2⟩).StSpeed ∧
          (out.get ⟨i, h1⟩).DateStart = (rows.get ⟨i, h2⟩).DateStart) := by
  constructor
  · intro body rows hb hr
    refine ⟨rows.map (fun p => { p with SessionKey := k }), ?_, by simp, ?_⟩
    · simp only [fetchPositionsFromAPI, hb, hr]
    · intro i h1 h2
      simp
  · intro body rows hb hr
    refine ⟨rows.map (fun l => { l with SessionKey := k }), ?_, by simp, ?_⟩
    · simp only [fetchLapsFromAPI, hb, hr]
    · intro i h1 h2
      simp

/-- Concrete run for C18: the sample payloads report session keys 1, 9472 and
7; the rows returned for the query of session 9472 all carry 9472. -/
theorem fetchRows_overwrite_session_key_witness :
    ((fetchUrl demoEnv (.position 9472)).result = .ok positionsDoc ∧
      demoEnv.rows.positions positionsDoc =
        .ok [⟨44, 1, 3, "2024-03-02T15:40:00"⟩, ⟨1, 9472, 1, "2024-03-02T15:40:00"⟩]) ∧
    (∃ out, fetchPositionsFromAPI demoEnv 9472 = .ok out ∧ out.length = 2 ∧
      ∀ (i : Nat) (h1 : i < out.length)
        (h2 : i < [(⟨44, 1, 3, "2024-03-02T15:40:00"⟩ : Position),
          ⟨1, 9472, 1, "2024-03-02T15:40:00"⟩].length),
        (out.get ⟨i, h1⟩).SessionKey = 9472 ∧
        (out.get ⟨i, h1⟩).DriverNumber =
          ([(⟨44, 1, 3, "2024-03-02T15:40:00"⟩ : Position),
            ⟨1, 9472, 1, "2024-03-02T15:40:00"⟩].get ⟨i, h2⟩).DriverNumber ∧
        (out.get ⟨i, h1⟩).Position =
          ([(⟨44, 1, 3, "2024-03-02T15:40:00"⟩ : Position),
            ⟨1, 9472, 1, "2024-03-02T15:40:00"⟩].get ⟨i, h2⟩).Position ∧
        (out.get ⟨i, h1⟩).Date =
          ([(⟨44, 1, 3, "2024-03-02T15:40:00"⟩ : Position),
            ⟨1, 9472, 1, "2024-03-02T15:40:00"⟩].get ⟨i, h2⟩).Date) ∧
    fetchPositionsFromAPI demoEnv 9472 =
      .ok [⟨44, 9472, 3, "2024-03-02T15:40:00"⟩, ⟨1, 9472, 1, "2024-03-02T15:40:00"⟩] ∧
    fetchLapsFromAPI demoEnv 9472 =
      .ok [⟨1, 9472, 3, 95500, 30100, 35200, 30200, 311, "2024-03-02T15:03:12"⟩] :=
  ⟨⟨rfl, rfl⟩, (fetchRows_overwrite_session_key demoEnv 9472).1 positionsDoc _ rfl rfl,
    rfl, rfl⟩

/-! ### Population: positions and laps -/

theorem foldl_sessionWorker_fetched (env : Env) (sessions : List Session) :
    ∀ acc : FanOut, (sessions.foldl (sessionWorker env) acc).fetched =
      acc.fetched ++ sessions.flatMap (fun s => [.position s.SessionKey, .laps s.SessionKey]) := by
  induction sessions with
  | nil => intro acc; simp
  | cons s l ih =>
    intro acc
    rw [List.foldl_cons, ih]
    simp [sessionWorker]

/-- C19 (counterexample). The store holds a Position row and no Lap row: the
step does not skip the Position dataset but fetches the positions of the
cached session again and appends the fetched rows to the Position table. -/
theorem autoPopulatePositionsAndLaps_refetches_positions :
    positionsOnlyStore.positions = [⟨44, 9472, 2, "2024-03-02T15:20:00"⟩] ∧
    positionsOnlyStore.laps = [] ∧
    (autoPopulatePositionsAndLapsIfNeeded demoEnv ⟨positionsOnlyStore, [], 0, []⟩).fetched =
      [.position 9472, .laps 9472] ∧
    (autoPopulatePositionsAndLapsIfNeeded demoEnv ⟨positionsOnlyStore, [], 0, []⟩).store.positions =
      [⟨44, 9472, 2, "2024-03-02T15:20:00"⟩, ⟨44, 9472, 3, "2024-03-02T15:40:00"⟩,
       ⟨1, 9472, 1, "2024-03-02T15:40:00"⟩] :=
  ⟨rfl, rfl, rfl, rfl⟩

/-- C19 (amended). The positions-and-laps step is skipped when both tables
are non-empty: it then makes no fetch and appends no row.  When one of the two
tables is empty and sessions are cached, it fetches the positions and the laps
of every cached session, whichever table was empty. -/
theorem autoPopulatePositionsAndLaps_skip (env : Env) (s : PopState) :
    (0 < s.store.positions.length → 0 < s.store.laps.length →
      autoPopulatePositionsAndLapsIfNeeded env s = s) ∧
    ((s.store.positions = [] ∨ s.store.laps = []) → s.store.sessions ≠ [] →
      (autoPopulatePositionsAndLapsIfNeeded env s).fetched =
        s.fetched ++ s.store.sessions.flatMap
          (fun x => [.position x.SessionKey, .laps x.SessionKey])) := by
  constructor
  · intro hp hl
    simp [autoPopulatePositionsAndLapsIfNeeded, hp, hl]
  · intro hempty hsess
    have hc : (decide (s.store.positions.length > 0) && decide (s.store.laps.length > 0)) = false := by
      rcases hempty with h | h <;> simp [h]
    have hlen : ¬ s.store.sessions.length = 0 := fun h => hsess (List.length_eq_zero.1 h)
    simp only [autoPopulatePositionsAndLapsIfNeeded, hc, hlen, if_false, Bool.false_eq_true]
    exact foldl_sessionWorker_fetched env _ _

/-- Concrete run for the amended C19: the sample store has Position and Lap
rows and is left untouched; the store without Lap rows has both datasets of
session 9472 fetched. -/
theorem autoPopulatePositionsAndLaps_skip_witness :
    (0 < sampleStore.positions.length ∧ 0 < sampleStore.laps.length ∧
      autoPopulatePositionsAndLapsIfNeeded demoEnv ⟨sampleStore, [], 0, []⟩ =
        ⟨sampleStore, [], 0, []⟩) ∧
    ((positionsOnlyStore.positions = [] ∨ positionsOnlyStore.laps = []) ∧
      positionsOnlyStore.sessions ≠ [] ∧
      (autoPopulatePositionsAndLapsIfNeeded demoEnv ⟨positionsOnlyStore, [], 0, []⟩).fetched =
        [] ++ positionsOnlyStore.sessions.flatMap
          (fun x => [.position x.SessionKey, .laps x.SessionKey])) :=
  ⟨⟨by decide, by decide,
      (autoPopulatePositionsAndLaps_skip demoEnv ⟨sampleStore, [], 0, []⟩).1
        (by decide) (by decide)⟩,
    ⟨Or.inr rfl, by decide,
      (autoPopulatePositionsAndLaps_skip demoEnv ⟨positionsOnlyStore, [], 0, []⟩).2
        (Or.inr rfl) (by decide)⟩⟩

/-! ### Population: the chunked insert -/

theorem countP_set_add {α : Type} (p : α → Bool) :
    ∀ (l : List α) (i : Nat) (a b : α), l.get? i = some a →
      (l.set i b).countP p + (if p a then 1 else 0) = l.countP p + (if p b then 1 else 0)
  | [], _, _, _, h => by simp at h
  | x :: l, 0, a, b, h => by
    simp only [List.get?_cons_zero, Option.some.injEq] at h
    subst h
    simp only [List.set_cons_zero, List.countP_cons]
    omega
  | x :: l, i + 1, a, b, h => by
    simp only [List.get?_cons_succ] at h
    have ih := countP_set_add p l i a b h
    simp only [List.set_cons_succ, List.countP_cons]
    omega

theorem flatMap_set_perm {α β : Type} (g : α → List β) :
    ∀ (l : List α) (i : Nat) (a b : α), l.get? i = some a →
      ((l.set i b).flatMap g ++ g a).Perm (l.flatMap g ++ g b)
  | [], _, _, _, h => by simp at h
  | x :: l, 0, a, b, h => by
    simp only [List.get?_cons_zero, Option.some.injEq] at h
    subst h
    simp only [List.set_cons_zero, List.flatMap_cons]
    have h1 : (g b ++ l.flatMap g ++ g x).Perm (g x ++ (g b ++ l.flatMap g)) :=
      List.perm_append_comm
    have h2 : (g x ++ (g b ++ l.flatMap g)).Perm (g x ++ (l.flatMap g ++ g b)) :=
      List.Perm.append_left _ List.perm_append_comm
    rw [List.append_assoc (g x)]
    exact h1.trans h2
  | x :: l, i + 1, a, b, h => by
    simp only [List.get?_cons_succ] at h
    have ih := flatMap_set_perm g l i a b h
    simp only [List.set_cons_succ, List.flatMap_cons, List.append_assoc]
    exact List.Perm.append_left _ ih

theorem map_set_same {α β : Type} (f : α → β) :
    ∀ (l : List α) (i : Nat) (a b : α), l.get? i = some a → f b = f a →
      (l.set i b).map f = l.map f
  | [], _, _, _, h, _ => by simp at h
  | x :: l, 0, a, b, h, hf => by
    simp only [List.get?_cons_zero, Option.some.injEq] at h
    subst h
    simp [hf]
  | x :: l, i + 1, a, b, h, hf => by
    simp only [List.get?_cons_succ] at h
    simp [map_set_same f l i a b h hf]

/-- A step that replaces one element by one with the same contribution leaves
the collected rows the same up to order. -/
theorem flatMap_set_perm_same {α β : Type} (g : α → List β) (l : List α) (i : Nat) (a b : α)
    (h : l.get? i = some a) (hg : g b = g a) : ((l.set i b).flatMap g).Perm (l.flatMap g) := by
  have hp := flatMap_set_perm g l i a b h
  rw [hg] at hp
  exact (List.perm_append_right_iff _).1 hp

/-- A step in which one element starts contributing `rows` adds `rows` to the
collected rows, up to order. -/
theorem flatMap_set_perm_add {α β : Type} (g : α → List β) (l : List α) (i : Nat) (a b : α)
    (h : l.get? i = some a) (ha : g a = []) :
    ((l.set i b).flatMap g).Perm (l.flatMap g ++ g b) := by
  have hp := flatMap_set_perm g l i a b h
  rw [ha, List.append_nil] at hp
  exact hp

/-! ### The concurrent fan-out: the invariant -/

theorem fanInv_init (env : Env) (sessions : List Session) :
    FanInv env sessions (initFan sessions) :=
  ⟨rfl, Nat.zero_le _, rfl, List.Perm.refl _, List.Perm.refl _⟩

/-- Replacing worker `i` by a worker of the same session changes the number
of workers past the gate by the change of that worker alone. -/
theorem fanInv_set {env : Env} {sessions : List Session} {s : FanState}
    (inv : FanInv env sessions s) {i : Nat} {w : Worker} (hw : s.workers.get? i = some w)
    (ph : Phase) (sem : Nat) (allPositions : List Position) (allLaps : List Lap)
    (hgate : sem + (if pastGate w then 1 else 0) =
      s.sem + (if pastGate ⟨w.session, ph⟩ then 1 else 0))
    (hcap : sem ≤ semCapacity)
    (hpos : allPositions.Perm (s.allPositions ++
      (if positionsAppended w then []
       else if positionsAppended ⟨w.session, ph⟩ then positionRowsOf env w.session else [])))
    (hmono : positionsAppended w = true → positionsAppended ⟨w.session, ph⟩ = true)
    (hlaps : allLaps.Perm (s.allLaps ++
      (if lapsAppended w then []
       else if lapsAppended ⟨w.session, ph⟩ then lapRowsOf env w.session else [])))
    (hmono' : lapsAppended w = true → lapsAppended ⟨w.session, ph⟩ = true) :
    FanInv env sessions
      ⟨s.pending, s.workers.set i ⟨w.session, ph⟩, sem, allPositions, allLaps⟩ := by
  refine ⟨?_, hcap, ?_, ?_, ?_⟩
  · have hc := countP_set_add pastGate s.workers i w ⟨w.session, ph⟩ hw
    have hg := inv.gate
    simp only
    omega
  · simp only
    rw [map_set_same (fun w : Worker => w.session) s.workers i w ⟨w.session, ph⟩ hw rfl]
    exact inv.covers
  · simp only
    by_cases ha : positionsAppended w = true
    · have hb := hmono ha
      rw [if_pos ha, List.append_nil] at hpos
      refine hpos.trans (inv.pos.trans (List.Perm.symm ?_))
      apply flatMap_set_perm_same _ _ _ _ _ hw
      simp [ha, hb]
    · rw [if_neg ha] at hpos
      by_cases hb : positionsAppended ⟨w.session, ph⟩ = true
      · rw [if_pos hb] at hpos
        refine hpos.trans ((List.Perm.append_right _ inv.pos).trans (List.Perm.symm ?_))
        have := flatMap_set_perm_add
          (fun w : Worker => if positionsAppended w then positionRowsOf env w.session else [])
          s.workers i w ⟨w.session, ph⟩ hw (by simp [ha])
        simpa [hb] using this
      · rw [if_neg hb, List.append_nil] at hpos
        refine hpos.trans (inv.pos.trans (List.Perm.symm ?_))
        apply flatMap_set_perm_same _ _ _ _ _ hw
        simp [ha, hb]
  · simp only
    by_cases ha : lapsAppended w = true
    · have hb := hmono' ha
      rw [if_pos ha, List.append_nil] at hlaps
      refine hlaps.trans (inv.laps.trans (List.Perm.symm ?_))
      apply flatMap_set_perm_same _ _ _ _ _ hw
      simp [ha, hb]
    · rw [if_neg ha] at hlaps
      by_cases hb : lapsAppended ⟨w.session, ph⟩ = true
      · rw [if_pos hb] at hlaps
        refine hlaps.trans ((List.Perm.append_right _ inv.laps).trans (List.Perm.symm ?_))
        have := flatMap_set_perm_add
          (fun w : Worker => if lapsAppended w then lapRowsOf env w.session else [])
          s.workers i w ⟨w.session, ph⟩ hw (by simp [ha])
        simpa [hb] using this
      · rw [if_neg hb, List.append_nil] at hlaps
        refine hlaps.trans (inv.laps.trans (List.Perm.symm ?_))
        apply flatMap_set_perm_same _ _ _ _ _ hw
        simp [ha, hb]

/-- Every enabled action preserves the invariant. -/
theorem fanInv_step {env : Env} {sessions : List Session} {s s' : FanState} {a : Action}
    (inv : FanInv env sessions s) (h : step env s a = some s') : FanInv env sessions s' := by
  cases a with
  | spawn =>
    cases hp : s.pending with
    | nil => simp [step, hp] at h
    | cons x rest =>
      simp only [step, hp, Option.some.injEq] at h
      subst h
      refine ⟨?_, inv.cap, ?_, ?_, ?_⟩
      · simpa [pastGate] using inv.gate
      · have := inv.covers
        rw [hp] at this
        simpa using this
      · simpa [positionsAppended] using inv.pos
      · simpa [lapsAppended] using inv.laps
  | acquire i =>
    cases hw : s.workers.get? i with
    | none => simp only [step, hw, reduceCtorEq] at h
    | some w =>
      by_cases hc : w.phase = .atGate ∧ s.sem < semCapacity
      · simp only [step, hw, hc, and_self, if_true, Option.some.injEq] at h
        subst h
        exact fanInv_set inv hw .fetchingPositions (s.sem + 1) s.allPositions s.allLaps
          (by simp [pastGate, hc.1]) hc.2 (by simp [positionsAppended, hc.1])
          (by simp [positionsAppended, hc.1]) (by simp [lapsAppended, hc.1])
          (by simp [lapsAppended, hc.1])
      · simp only [step, hw, hc, if_false, reduceCtorEq] at h
  | positionsDone i =>
    cases hw : s.workers.get? i with
    | none => simp only [step, hw, reduceCtorEq] at h
    | some w =>
      by_cases hc : w.phase = .fetchingPositions
      · simp only [step, hw, hc, if_true, Option.some.injEq] at h
        subst h
        exact fanInv_set inv hw .fetchingLaps s.sem _ s.allLaps
          (by simp [pastGate, hc]) inv.cap
          (by simp [positionsAppended, hc, positionRowsOf])
          (by simp [positionsAppended, hc]) (by simp [lapsAppended, hc])
          (by simp [lapsAppended, hc])
      · simp only [step, hw, hc, if_false, reduceCtorEq] at h
  | lapsDone i =>
    cases hw : s.workers.get? i with
    | none => simp only [step, hw, reduceCtorEq] at h
    | some w =>
      by_cases hc : w.phase = .fetchingLaps
      · simp only [step, hw, hc, if_true, Option.some.injEq] at h
        subst h
        exact fanInv_set inv hw .releasing s.sem s.allPositions _
          (by simp [pastGate, hc]) inv.cap
          (by simp [positionsAppended, hc])
          (by simp [positionsAppended, hc]) (by simp [lapsAppended, hc, lapRowsOf])
          (by simp [lapsAppended, hc])
      · simp only [step, hw, hc, if_false, reduceCtorEq] at h
  | release i =>
    cases hw : s.workers.get? i with
    | none => simp only [step, hw, reduceCtorEq] at h
    | some w =>
      by_cases hc : w.phase = .releasing ∧ 0 < s.sem
      · simp only [step, hw, hc, and_self, if_true, Option.some.injEq] at h
        subst h
        have hcap := inv.cap
        exact fanInv_set inv hw .done (s.sem - 1) s.allPositions s.allLaps
          (by simp [pastGate, hc.1]; omega) (by omega) (by simp [positionsAppended, hc.1])
          (by simp [positionsAppended, hc.1]) (by simp [lapsAppended, hc.1])
          (by simp [lapsAppended, hc.1])
      · simp only [step, hw, hc, if_false, reduceCtorEq] at h

/-- The invariant holds in every state a schedule reaches. -/
theorem fanInv_run {env : Env} {sessions : List Session} :
    ∀ (acts : List Action) {s s' : FanState}, FanInv env sessions s →
      run env s acts = some s' → FanInv env sessions s'
  | [], s, s', inv, h => by
    simp only [run, Option.some.injEq] at h
    exact h ▸ inv
  | a :: rest, s, s', inv, h => by
    cases hs : step env s a with
    | none => simp [run, hs] at h
    | some s1 =>
      simp only [run, hs] at h
      exact fanInv_run rest (fanInv_step inv hs) h

/-- C22. In every state reached by any schedule of the fan-out, for any list
of cached sessions, the workers that have passed the send on `sem` and not yet
received from it are as many as the elements buffered in `sem`, hence at most
5. -/
theorem fanOut_at_most_five (env : Env) (sessions : List Session) (acts : List Action)
    (s : FanState) (h : run env (initFan sessions) acts = some s) :
    s.workers.countP pastGate ≤ 5 ∧ s.workers.countP pastGate = s.sem := by
  have inv := fanInv_run acts (fanInv_init env sessions) h
  exact ⟨inv.gate ▸ inv.cap, inv.gate⟩

/-- Concrete run for C22: with seven sessions, once five workers are past the
gate the bound is reached, and the send of a sixth worker is not enabled. -/
theorem fanOut_at_most_five_witness :
    run demoEnv (initFan sevenSessions) fiveAdmitted = some fiveAdmittedState ∧
    (fiveAdmittedState.workers.countP pastGate ≤ 5 ∧
      fiveAdmittedState.workers.countP pastGate = fiveAdmittedState.sem) ∧
    fiveAdmittedState.workers.countP pastGate = 5 ∧
    (step demoEnv fiveAdmittedState (.acquire 5)).isNone = true ∧
    (step demoEnv fiveAdmittedState (.acquire 6)).isNone = true :=
  ⟨rfl, fanOut_at_most_five demoEnv sevenSessions fiveAdmitted fiveAdmittedState rfl,
    rfl, rfl, rfl⟩

/-! ### The concurrent fan-out: the collected rows -/

theorem flatMap_positionRowsOf (env : Env) (sessions : List Session) :
    sessions.flatMap (positionRowsOf env) = succeededPositionRows env sessions := by
  induction sessions with
  | nil => rfl
  | cons x l ih =>
    unfold succeededPositionRows at ih ⊢
    rw [List.flatMap_cons, ih, List.filterMap_cons]
    unfold positionRowsOf rowsOrNone
    cases fetchPositionsFromAPI env x.SessionKey <;> simp

theorem flatMap_lapRowsOf (env : Env) (sessions : List Session) :
    sessions.flatMap (lapRowsOf env) = succeededLapRows env sessions := by
  induction sessions with
  | nil => rfl
  | cons x l ih =>
    unfold succeededLapRows at ih ⊢
    rw [List.flatMap_cons, ih, List.filterMap_cons]
    unfold lapRowsOf rowsOrNone
    cases fetchLapsFromAPI env x.SessionKey <;> simp

/-- The buffers left by the workers run one after the other, as in the
populate step. -/
theorem foldl_sessionWorker_rows (env : Env) (sessions : List Session) :
    ∀ acc : FanOut,
      (sessions.foldl (sessionWorker env) acc).allPositions =
        acc.allPositions ++ sessions.flatMap (positionRowsOf env) ∧
      (sessions.foldl (sessionWorker env) acc).allLaps =
        acc.allLaps ++ sessions.flatMap (lapRowsOf env) := by
  induction sessions with
  | nil => intro acc; simp
  | cons x l ih =>
    intro acc
    obtain ⟨h1, h2⟩ := ih (sessionWorker env acc x)
    rw [List.foldl_cons, h1, h2]
    simp [sessionWorker, positionRowsOf, lapRowsOf]

theorem flatMap_all_done {β : Type} (f : Session → List β) (p : Worker → Bool) :
    ∀ ws : List Worker, (∀ w ∈ ws, p w = true) →
      ws.flatMap (fun w => if p w then f w.session else []) =
        (ws.map (fun w => w.session)).flatMap f := by
  intro ws
  induction ws with
  | nil => intro _; rfl
  | cons w ws ih =>
    intro h
    have hw := h w (List.mem_cons_self _ _)
    simp only [List.flatMap_cons, List.map_cons, hw, if_true]
    rw [ih (fun v hv => h v (List.mem_cons_of_mem _ hv))]

/-- When `wg.Wait()` returns, the two slices hold, up to order, the rows of
the successful fetches of all cached sessions. -/
theorem fanInv_finished {env : Env} {sessions : List Session} {s : FanState}
    (inv : FanInv env sessions s) (hf : finished s = true) :
    s.allPositions.Perm (succeededPositionRows env sessions) ∧
      s.allLaps.Perm (succeededLapRows env sessions) := by
  simp only [finished, Bool.and_eq_true, List.isEmpty_iff, List.all_eq_true, beq_iff_eq] at hf
  obtain ⟨hp, hd⟩ := hf
  have hcov : s.workers.map (fun w => w.session) = sessions := by
    have := inv.covers
    rw [hp, List.append_nil] at this
    exact this
  constructor
  · have h := inv.pos
    rw [flatMap_all_done (positionRowsOf env) positionsAppended s.workers
      (fun w hw => by simp [positionsAppended, hd w hw]), hcov, flatMap_positionRowsOf] at h
    exact h
  · have h := inv.laps
    rw [flatMap_all_done (lapRowsOf env) lapsAppended s.workers
      (fun w hw => by simp [lapsAppended, hd w hw]), hcov, flatMap_lapRowsOf] at h
    exact h

/-! ### The concurrent fan-out: runs to completion -/

theorem run_append (env : Env) :
    ∀ (a1 a2 : List Action) (s s1 : FanState), run env s a1 = some s1 →
      run env s (a1 ++ a2) = run env s1 a2
  | [], a2, s, s1, h => by
    simp only [run, Option.some.injEq] at h
    subst h
    rfl
  | a :: a1, a2, s, s1, h => by
    cases hs : step env s a with
    | none => simp [run, hs] at h
    | some s' =>
      simp only [run, hs] at h
      simp only [List.cons_append, run, hs]
      exact run_append env a1 a2 s' s1 h

/-- One worker started on top of the workers `ws` and run to its end while
nothing else moves. -/
theorem run_one_worker (env : Env) (x : Session) (rest : List Session) (ws : List Worker)
    (P : List Position) (L : List Lap) :
    run env ⟨x :: rest, ws, 0, P, L⟩
        [.spawn, .acquire ws.length, .positionsDone ws.length, .lapsDone ws.length,
          .release ws.length] =
      some ⟨rest, ws ++ [⟨x, .done⟩], 0, P ++ positionRowsOf env x, L ++ lapRowsOf env x⟩ := by
  simp [run, step, semCapacity, positionRowsOf, lapRowsOf]

/-- The sequential schedule runs every pending session's worker to its end. -/
theorem run_sequential (env : Env) :
    ∀ (pending : List Session) (ws : List Worker) (P : List Position) (L : List Lap),
      run env ⟨pending, ws, 0, P, L⟩ (sequentialSchedule ws.length pending) =
        some ⟨[], ws ++ pending.map (fun x => ⟨x, .done⟩), 0,
          P ++ pending.flatMap (positionRowsOf env), L ++ pending.flatMap (lapRowsOf env)⟩
  | [], ws, P, L => by simp [sequentialSchedule, run]
  | x :: rest, ws, P, L => by
    have h1 := run_one_worker env x rest ws P L
    have h2 := run_sequential env rest (ws ++ [⟨x, .done⟩]) (P ++ positionRowsOf env x)
      (L ++ lapRowsOf env x)
    rw [List.length_append, List.length_singleton] at h2
    rw [sequentialSchedule, run_append env _ _ _ _ h1, h2]
    simp

/-! ### The concurrent fan-out: progress and termination -/

theorem sum_map_set_add {α : Type} (f : α → Nat) :
    ∀ (l : List α) (i : Nat) (a b : α), l.get? i = some a →
      ((l.set i b).map f).sum + f a = (l.map f).sum + f b
  | [], _, _, _, h => by simp at h
  | x :: l, 0, a, b, h => by
    simp only [List.get?_cons_zero, Option.some.injEq] at h
    subst h
    simp only [List.set_cons_zero, List.map_cons, List.sum_cons]
    omega
  | x :: l, i + 1, a, b, h => by
    simp only [List.get?_cons_succ] at h
    have ih := sum_map_set_add f l i a b h
    simp only [List.set_cons_succ, List.map_cons, List.sum_cons]
    omega

/-- Moving worker `i` one phase forward takes one unit of the work left. -/
theorem workLeft_set {s : FanState} {i : Nat} {w : Worker} (hw : s.workers.get? i = some w)
    (ph : Phase) (sem : Nat) (P : List Position) (L : List Lap)
    (hph : stepsLeft w.phase = stepsLeft ph + 1) :
    workLeft s = workLeft ⟨s.pending, s.workers.set i ⟨w.session, ph⟩, sem, P, L⟩ + 1 := by
  have hs : ((s.workers.set i ⟨w.session, ph⟩).map (fun w => stepsLeft w.phase)).sum
      + stepsLeft w.phase = (s.workers.map (fun w => stepsLeft w.phase)).sum + stepsLeft ph :=
    sum_map_set_add (fun w : Worker => stepsLeft w.phase) s.workers i w ⟨w.session, ph⟩ hw
  simp only [workLeft]
  omega

/-- Every enabled action takes exactly one unit of the work left. -/
theorem workLeft_step {env : Env} {s s' : FanState} {a : Action}
    (h : step env s a = some s') : workLeft s = workLeft s' + 1 := by
  cases a with
  | spawn =>
    cases hp : s.pending with
    | nil => simp [step, hp] at h
    | cons x rest =>
      simp only [step, hp, Option.some.injEq] at h
      subst h
      simp only [workLeft, hp, List.length_cons, List.map_append, List.sum_append, List.map_cons,
        List.map_nil, List.sum_cons, List.sum_nil, stepsLeft]
      omega
  | acquire i =>
    cases hw : s.workers.get? i with
    | none => simp only [step, hw, reduceCtorEq] at h
    | some w =>
      by_cases hc : w.phase = .atGate ∧ s.sem < semCapacity
      · simp only [step, hw, hc, and_self, if_true, Option.some.injEq] at h
        subst h
        exact workLeft_set hw _ _ _ _ (by rw [hc.1]; rfl)
      · simp only [step, hw, hc, if_false, reduceCtorEq] at h
  | positionsDone i =>
    cases hw : s.workers.get? i with
    | none => simp only [step, hw, reduceCtorEq] at h
    | some w =>
      by_cases hc : w.phase = .fetchingPositions
      · simp only [step, hw, hc, if_true, Option.some.injEq] at h
        subst h
        exact workLeft_set hw _ _ _ _ (by rw [hc]; rfl)
      · simp only [step, hw, hc, if_false, reduceCtorEq] at h
  | lapsDone i =>
    cases hw : s.workers.get? i with
    | none => simp only [step, hw, reduceCtorEq] at h
    | some w =>
      by_cases hc : w.phase = .fetchingLaps
      · simp only [step, hw, hc, if_true, Option.some.injEq] at h
        subst h
        exact workLeft_set hw _ _ _ _ (by rw [hc]; rfl)
      · simp only [step, hw, hc, if_false, reduceCtorEq] at h
  | release i =>
    cases hw : s.workers.get? i with
    | none => simp only [step, hw, reduceCtorEq] at h
    | some w =>
      by_cases hc : w.phase = .releasing ∧ 0 < s.sem
      · simp only [step, hw, hc, and_self, if_true, Option.some.injEq] at h
        subst h
        exact workLeft_set hw _ _ _ _ (by rw [hc.1]; rfl)
      · simp only [step, hw, hc, if_false, reduceCtorEq] at h

/-- A schedule takes as many units of the work left as it has actions. -/
theorem workLeft_run {env : Env} :
    ∀ (acts : List Action) {s s' : FanState}, run env s acts = some s' →
      workLeft s = workLeft s' + acts.length
  | [], s, s', h => by
    simp only [run, Option.some.injEq] at h
    subst h
    rfl
  | a :: rest, s, s', h => by
    cases hs : step env s a with
    | none => simp [run, hs] at h
    | some s1 =>
      simp only [run, hs] at h
      have h1 := workLeft_step hs
      have h2 := workLeft_run rest h
      simp only [List.length_cons]
      omega

theorem exists_get?_of_mem {α : Type} {a : α} {l : List α} (h : a ∈ l) :
    ∃ i, l.get? i = some a := by
  obtain ⟨i, hi⟩ := List.mem_iff_getElem?.1 h
  exact ⟨i, by rw [List.get?_eq_getElem?]; exact hi⟩

/-- In a state satisfying the invariant in which `wg.Wait()` cannot return
yet, some action is enabled: the fan-out is never stuck. -/
theorem fan_progress {env : Env} {sessions : List Session} {s : FanState}
    (inv : FanInv env sessions s) (hf : finished s = false) :
    ∃ a s', step env s a = some s' := by
  cases hp : s.pending with
  | cons x rest =>
    exact ⟨.spawn, Option.isSome_iff_exists.1 (by simp only [step, hp, Option.isSome_some])⟩
  | nil =>
    have hnd : ∃ w ∈ s.workers, w.phase ≠ .done := by
      simp only [finished, hp, List.isEmpty_nil, Bool.true_and] at hf
      by_contra hall
      have : s.workers.all (fun w => w.phase == .done) = true := by
        rw [List.all_eq_true]
        intro w hw
        by_contra hne
        exact hall ⟨w, hw, by simpa using hne⟩
      rw [this] at hf
      cases hf
    by_cases h1 : ∃ w ∈ s.workers, w.phase = .fetchingPositions
    · obtain ⟨w, hw, hph⟩ := h1
      obtain ⟨i, hi⟩ := exists_get?_of_mem hw
      exact ⟨.positionsDone i, Option.isSome_iff_exists.1
        (by simp only [step, hi, hph, if_true, Option.isSome_some])⟩
    by_cases h2 : ∃ w ∈ s.workers, w.phase = .fetchingLaps
    · obtain ⟨w, hw, hph⟩ := h2
      obtain ⟨i, hi⟩ := exists_get?_of_mem hw
      exact ⟨.lapsDone i, Option.isSome_iff_exists.1
        (by simp only [step, hi, hph, if_true, Option.isSome_some])⟩
    by_cases h3 : ∃ w ∈ s.workers, w.phase = .releasing
    · obtain ⟨w, hw, hph⟩ := h3
      obtain ⟨i, hi⟩ := exists_get?_of_mem hw
      have hpos : 0 < s.sem := by
        rw [← inv.gate, List.countP_pos_iff]
        exact ⟨w, hw, by simp [pastGate, hph]⟩
      exact ⟨.release i, Option.isSome_iff_exists.1
        (by simp only [step, hi, hph, hpos, and_self, if_true, Option.isSome_some])⟩
    · obtain ⟨w, hw, hph⟩ := hnd
      obtain ⟨i, hi⟩ := exists_get?_of_mem hw
      have hgate : w.phase = .atGate := by
        cases hc : w.phase with
        | atGate => rfl
        | fetchingPositions => exact absurd ⟨w, hw, hc⟩ h1
        | fetchingLaps => exact absurd ⟨w, hw, hc⟩ h2
        | releasing => exact absurd ⟨w, hw, hc⟩ h3
        | done => exact absurd hc hph
      have hzero : s.sem = 0 := by
        rw [← inv.gate, List.countP_eq_zero]
        intro v hv hpg
        simp only [pastGate, Bool.or_eq_true, beq_iff_eq] at hpg
        rcases hpg with (hpg | hpg) | hpg
        · exact h1 ⟨v, hv, hpg⟩
        · exact h2 ⟨v, hv, hpg⟩
        · exact h3 ⟨v, hv, hpg⟩
      have hlt : s.sem < semCapacity := by rw [hzero]; decide
      exact ⟨.acquire i, Option.isSome_iff_exists.1
        (by simp only [step, hi, hgate, hlt, and_self, if_true, Option.isSome_some])⟩

/-- C21. The rows collected by the positions/laps fan-out.  Run one worker
after the other, as in the populate step, the two slices receive exactly the
rows returned by the positions fetches that succeeded and by the laps fetches
that succeeded.  Under any interleaving of the workers: a schedule has at most
five actions per session, a state in which `wg.Wait()` cannot return yet always
has an enabled action (neither a failed fetch nor anything else stops the run),
and when `wg.Wait()` returns the slices hold those same rows up to order; the
rows of the laps do not depend on the outcome of any positions fetch, and the
rows of a session on no other session. -/
theorem fanOut_collects (env : Env) (sessions : List Session) :
    (∀ acc : FanOut,
      (sessions.foldl (sessionWorker env) acc).allPositions =
        acc.allPositions ++ succeededPositionRows env sessions ∧
      (sessions.foldl (sessionWorker env) acc).allLaps =
        acc.allLaps ++ succeededLapRows env sessions) ∧
    (∃ s, run env (initFan sessions) (sequentialSchedule 0 sessions) = some s ∧
      finished s = true) ∧
    (∀ acts s, run env (initFan sessions) acts = some s →
      acts.length ≤ 5 * sessions.length ∧
      (finished s = false → ∃ a s', step env s a = some s') ∧
      (finished s = true →
        s.allPositions.Perm (succeededPositionRows env sessions) ∧
        s.allLaps.Perm (succeededLapRows env sessions))) := by
  refine ⟨fun acc => ?_, ?_, fun acts s h => ?_⟩
  · obtain ⟨h1, h2⟩ := foldl_sessionWorker_rows env sessions acc
    rw [h1, h2, flatMap_positionRowsOf, flatMap_lapRowsOf]
    exact ⟨rfl, rfl⟩
  · refine ⟨_, run_sequential env sessions [] [] [], ?_⟩
    simp [finished]
  · have inv := fanInv_run acts (fanInv_init env sessions) h
    refine ⟨?_, fun hf => fan_progress inv hf, fun hf => fanInv_finished inv hf⟩
    have hw := workLeft_run acts h
    have h0 : workLeft (initFan sessions) = 5 * sessions.length := by
      simp [workLeft, initFan]
    omega

/-- Concrete run for C21: the positions fetch of session 1 fails, the workers
of sessions 1 and 2 interleave; the collected positions are those of session
2, the collected laps those of both sessions. -/
theorem fanOut_collects_witness :
    (fetchPositionsFromAPI flakyEnv 1).toOption = none ∧
    run flakyEnv (initFan [raceWithKey 1, raceWithKey 2]) interleaved = some interleavedState ∧
    finished interleavedState = true ∧
    (interleavedState.allPositions.Perm
        (succeededPositionRows flakyEnv [raceWithKey 1, raceWithKey 2]) ∧
      interleavedState.allLaps.Perm
        (succeededLapRows flakyEnv [raceWithKey 1, raceWithKey 2])) ∧
    succeededPositionRows flakyEnv [raceWithKey 1, raceWithKey 2] =
      [⟨44, 2, 3, "2024-03-02T15:40:00"⟩, ⟨1, 2, 1, "2024-03-02T15:40:00"⟩] ∧
    succeededLapRows flakyEnv [raceWithKey 1, raceWithKey 2] =
      [⟨1, 1, 3, 95500, 30100, 35200, 30200, 311, "2024-03-02T15:03:12"⟩,
       ⟨1, 2, 3, 95500, 30100, 35200, 30200, 311, "2024-03-02T15:03:12"⟩] :=
  ⟨rfl, rfl, rfl,
    ((fanOut_collects flakyEnv [raceWithKey 1, raceWithKey 2]).2.2 interleaved
      interleavedState rfl).2.2 rfl,
    rfl, rfl⟩

end F1Server
